import Mathlib

/-!
Verification of the e9tool front-end driver (src/e9tool/e9tool.cpp) against its
specification.  The definitions below are a shallow embedding of the C++ source:
enumerations become inductives, structs become structures, loops become
recursions, and the mutable `pass`/`emitted` state of the evaluator and the
emission planner is threaded explicitly.  Machine integers (`intptr_t`, `off_t`)
are modelled as `Int`; the bit-packed `Location` fields carry their reductions
modulo the field widths.
-/

namespace E9Tool

/-- CS_AC_READ flag of the capstone operand access mask. -/
def CS_AC_READ : Nat := 1

/-- CS_AC_WRITE flag of the capstone operand access mask. -/
def CS_AC_WRITE : Nat := 2

/-- CS_GRP_JUMP capstone semantic group id. -/
def CS_GRP_JUMP : Nat := 1

/-- CS_GRP_CALL capstone semantic group id. -/
def CS_GRP_CALL : Nat := 2

/-- CS_GRP_RET capstone semantic group id. -/
def CS_GRP_RET : Nat := 3

/-- The literal INT8_MAX used by the short-jump window test. -/
def INT8_MAX : Int := 127

/-- MAX_ACTIONS from e9tool.cpp: `#define MAX_ACTIONS (1 << 10)`. -/
def MAX_ACTIONS : Nat := 1 <<< 10

/-- Operand types of the capstone operand model (`x86_op_type`).  Only the
three kinds inspected by e9tool plus the invalid sentinel are carried. -/
inductive OpType where
  | invalid
  | imm
  | reg
  | mem
  deriving DecidableEq, Repr

/-- `#define OP_TYPE_IMM 1` -/
def OP_TYPE_IMM : Int := 1

/-- `#define OP_TYPE_REG 2` -/
def OP_TYPE_REG : Int := 2

/-- `#define OP_TYPE_MEM 3` -/
def OP_TYPE_MEM : Int := 3

/-- One operand of a disassembled instruction (`cs_x86_op`): its type, byte
size, and access mask (a bitset over CS_AC_READ and CS_AC_WRITE). -/
structure Operand where
  type : OpType
  size : Nat
  access : Nat
  deriving DecidableEq, Repr

/-- A disassembled instruction (`cs_insn` plus its `cs_detail`): address, byte
size, mnemonic and operand strings, structured operands, and the semantic
group ids the instruction belongs to. -/
structure Insn where
  address : Int
  size : Nat
  mnemonic : String
  op_str : String
  operands : List Operand
  groups : List Nat
  deriving DecidableEq, Repr

/-- enum MatchKind of e9tool.cpp. -/
inductive MatchKind where
  | MATCH_INVALID
  | MATCH_TRUE
  | MATCH_FALSE
  | MATCH_PLUGIN
  | MATCH_ASSEMBLY
  | MATCH_ADDRESS
  | MATCH_CALL
  | MATCH_JUMP
  | MATCH_MNEMONIC
  | MATCH_OFFSET
  | MATCH_RANDOM
  | MATCH_RETURN
  | MATCH_SIZE
  | MATCH_OP
  | MATCH_SRC
  | MATCH_DST
  | MATCH_IMM
  | MATCH_REG
  | MATCH_MEM
  deriving DecidableEq, Repr

/-- enum Field of e9tool.cpp. -/
inductive Field where
  | FIELD_NONE
  | FIELD_SIZE
  | FIELD_TYPE
  | FIELD_READ
  | FIELD_WRITE
  deriving DecidableEq, Repr

/-- enum MatchCmp of e9tool.cpp. -/
inductive MatchCmp where
  | MATCH_CMP_INVALID
  | MATCH_CMP_EQ_ZERO
  | MATCH_CMP_NEQ_ZERO
  | MATCH_CMP_EQ
  | MATCH_CMP_NEQ
  | MATCH_CMP_LT
  | MATCH_CMP_LEQ
  | MATCH_CMP_GT
  | MATCH_CMP_GEQ
  deriving DecidableEq, Repr

/-- enum ActionKind of e9tool.cpp. -/
inductive ActionKind where
  | ACTION_INVALID
  | ACTION_CALL
  | ACTION_PASSTHRU
  | ACTION_PLUGIN
  | ACTION_PRINT
  | ACTION_TRAP
  deriving DecidableEq, Repr

/-- enum CallKind (declared in e9frontend, used by e9tool.cpp). -/
inductive CallKind where
  | CALL_BEFORE
  | CALL_AFTER
  | CALL_REPLACE
  | CALL_CONDITIONAL
  deriving DecidableEq, Repr

/-- enum ArgumentKind: the call-argument vocabulary, enumerated from its uses
in parseAction (e9tool.cpp lines 700-973). -/
inductive ArgumentKind where
  | ARGUMENT_INVALID
  | ARGUMENT_ASM
  | ARGUMENT_ASM_LEN
  | ARGUMENT_ASM_SIZE
  | ARGUMENT_ADDR
  | ARGUMENT_BASE
  | ARGUMENT_BYTES
  | ARGUMENT_BYTES_SIZE
  | ARGUMENT_NEXT
  | ARGUMENT_OFFSET
  | ARGUMENT_RANDOM
  | ARGUMENT_STATIC_ADDR
  | ARGUMENT_TARGET
  | ARGUMENT_TRAMPOLINE
  | ARGUMENT_OP
  | ARGUMENT_SRC
  | ARGUMENT_DST
  | ARGUMENT_IMM
  | ARGUMENT_REG
  | ARGUMENT_MEM
  | ARGUMENT_AL
  | ARGUMENT_AH
  | ARGUMENT_BL
  | ARGUMENT_BH
  | ARGUMENT_CL
  | ARGUMENT_CH
  | ARGUMENT_DL
  | ARGUMENT_DH
  | ARGUMENT_BPL
  | ARGUMENT_SPL
  | ARGUMENT_DIL
  | ARGUMENT_SIL
  | ARGUMENT_R8B
  | ARGUMENT_R9B
  | ARGUMENT_R10B
  | ARGUMENT_R11B
  | ARGUMENT_R12B
  | ARGUMENT_R13B
  | ARGUMENT_R14B
  | ARGUMENT_R15B
  | ARGUMENT_AX
  | ARGUMENT_BX
  | ARGUMENT_CX
  | ARGUMENT_DX
  | ARGUMENT_BP
  | ARGUMENT_SP
  | ARGUMENT_DI
  | ARGUMENT_SI
  | ARGUMENT_R8W
  | ARGUMENT_R9W
  | ARGUMENT_R10W
  | ARGUMENT_R11W
  | ARGUMENT_R12W
  | ARGUMENT_R13W
  | ARGUMENT_R14W
  | ARGUMENT_R15W
  | ARGUMENT_EAX
  | ARGUMENT_EBX
  | ARGUMENT_ECX
  | ARGUMENT_EDX
  | ARGUMENT_EBP
  | ARGUMENT_ESP
  | ARGUMENT_EDI
  | ARGUMENT_ESI
  | ARGUMENT_R8D
  | ARGUMENT_R9D
  | ARGUMENT_R10D
  | ARGUMENT_R11D
  | ARGUMENT_R12D
  | ARGUMENT_R13D
  | ARGUMENT_R14D
  | ARGUMENT_R15D
  | ARGUMENT_RAX
  | ARGUMENT_RBX
  | ARGUMENT_RCX
  | ARGUMENT_RDX
  | ARGUMENT_RBP
  | ARGUMENT_RSP
  | ARGUMENT_RSI
  | ARGUMENT_RDI
  | ARGUMENT_R8
  | ARGUMENT_R9
  | ARGUMENT_R10
  | ARGUMENT_R11
  | ARGUMENT_R12
  | ARGUMENT_R13
  | ARGUMENT_R14
  | ARGUMENT_R15
  | ARGUMENT_RFLAGS
  | ARGUMENT_RIP
  | ARGUMENT_INTEGER
  | ARGUMENT_USER
  deriving DecidableEq, Repr

/-- struct Argument (declared in e9frontend): the tuple pushed by parseAction:
`args.push_back({arg, ptr, duplicate, value, basename})`. -/
structure Argument where
  kind : ArgumentKind
  ptr : Bool
  duplicate : Bool
  value : Int
  basename : Option String
  deriving DecidableEq, Repr

/-- struct MatchEntry of e9tool.cpp.  The `match` field is renamed `mkind`
(`match` is a Lean keyword).  The union payload is split: `values` carries the
key list of the `Index<intptr_t>` (a `std::map`, hence sorted and
deduplicated), `regexFn` carries the compiled `std::regex` of an
assembly/mnemonic entry as an abstract string predicate, and `pluginResult`
carries the value of `entry.plugin->result` at evaluation time. -/
structure MatchEntry where
  mkind : MatchKind
  idx : Int
  field : Field
  cmp : MatchCmp
  values : List Int
  regexFn : String → Bool
  pluginResult : Int

/-- struct Action of e9tool.cpp (the fields the core logic reads; the
diagnostic `string`, the plugin handle and the lazily-bound `elf` are
omitted).  `name` is derived by `actionName` below rather than stored. -/
structure Action where
  entries : List MatchEntry
  kind : ActionKind
  filename : String
  symbol : String
  args : List Argument
  clean : Bool
  call : CallKind

/-- struct Location of e9tool.cpp: the 64-bit packed record
`(offset:48, size:4, emitted:1, patch:1, action:10)`, as a plain record. -/
structure Location where
  offset : Nat
  size : Nat
  emitted : Bool
  patch : Bool
  action : Nat
  deriving DecidableEq, Repr

/-- The Location constructor
`Location(off_t offset, size_t size, bool patch, unsigned action)`: the
bit-packed fields truncate their inputs to 48, 4 and 10 bits; `emitted`
starts at 0. -/
def Location.make (offset : Int) (size : Nat) (patch : Bool) (action : Int) :
    Location where
  offset := (offset % (2 ^ 48)).toNat
  size := size % 16
  emitted := false
  patch := patch
  action := (action % (2 ^ 10)).toNat

/-- makeMatchString (e9tool.cpp lines 1051-1073): the regex subject string. -/
def makeMatchString (mk : MatchKind) (I : Insn) : String :=
  match mk with
  | .MATCH_ASSEMBLY =>
    if I.op_str = "" then I.mnemonic else I.mnemonic ++ " " ++ I.op_str
  | .MATCH_MNEMONIC => I.mnemonic
  | _ => ""

/-- The operand filter of getOperand/getNumOperands (e9tool.cpp lines
1085-1087): type matches (or no type constraint), and the access masks
intersect, immediates always counting as readable. -/
def operandOk (type : OpType) (access : Nat) (op : Operand) : Bool :=
  (if type = OpType.invalid then true else op.type = type) &&
  ((op.access &&& access) ≠ 0 ||
   (op.type = OpType.imm && (access &&& CS_AC_READ) ≠ 0))

/-- getOperand (e9tool.cpp lines 1078-1095): the idx-th operand passing the
filter, scanning left to right and decrementing idx on each hit. -/
def getOperand (ops : List Operand) (idx : Nat) (type : OpType)
    (access : Nat) : Option Operand :=
  match ops with
  | [] => none
  | op :: rest =>
    if operandOk type access op then
      if idx = 0 then some op else getOperand rest (idx - 1) type access
    else getOperand rest idx type access

/-- getNumOperands (e9tool.cpp lines 1100-1116): the number of operands
passing the filter. -/
def getNumOperands (ops : List Operand) (type : OpType) (access : Nat) : Int :=
  (ops.countP (fun op => operandOk type access op) : Int)

/-- The operand type filter makeMatchValue selects for a match kind
(e9tool.cpp lines 1128-1142). -/
def matchOpType (mk : MatchKind) : OpType :=
  match mk with
  | .MATCH_IMM => .imm
  | .MATCH_REG => .reg
  | .MATCH_MEM => .mem
  | _ => .invalid

/-- The operand access filter makeMatchValue selects for a match kind
(e9tool.cpp lines 1127-1142). -/
def matchOpAccess (mk : MatchKind) : Nat :=
  match mk with
  | .MATCH_SRC => CS_AC_READ
  | .MATCH_DST => CS_AC_WRITE
  | _ => CS_AC_READ ||| CS_AC_WRITE

/-- makeMatchValue (e9tool.cpp lines 1121-1220).  Returns the value together
with the `defined` out-parameter; the C++ `return (*defined = false)` paths
return the pair `(0, false)`.  `rnd` stands for the `rand()` call of
MATCH_RANDOM and `result` for the plugin result argument. -/
def makeMatchValue (mk : MatchKind) (idx : Int) (field : Field) (I : Insn)
    (offset result rnd : Int) : Int × Bool :=
  let type : OpType := matchOpType mk
  let access : Nat := matchOpAccess mk
  match mk with
  | .MATCH_TRUE => (1, true)
  | .MATCH_FALSE => (0, true)
  | .MATCH_ADDRESS => (I.address, true)
  | .MATCH_CALL => (if I.groups.contains CS_GRP_CALL then 1 else 0, true)
  | .MATCH_JUMP => (if I.groups.contains CS_GRP_JUMP then 1 else 0, true)
  | .MATCH_OP | .MATCH_SRC | .MATCH_DST
  | .MATCH_IMM | .MATCH_REG | .MATCH_MEM =>
    if idx < 0 then
      match field with
      | .FIELD_SIZE => (getNumOperands I.operands type access, true)
      | _ => (0, false)
    else
      match getOperand I.operands idx.toNat type access with
      | none => (0, false)
      | some op =>
        match field with
        | .FIELD_SIZE => ((op.size : Int), true)
        | .FIELD_TYPE =>
          match op.type with
          | .imm => (OP_TYPE_IMM, true)
          | .reg => (OP_TYPE_REG, true)
          | .mem => (OP_TYPE_MEM, true)
          | .invalid => (0, false)
        | .FIELD_READ =>
          (if op.type = OpType.imm || (op.access &&& CS_AC_READ) ≠ 0
           then 1 else 0, true)
        | .FIELD_WRITE =>
          (if (op.access &&& CS_AC_WRITE) ≠ 0 then 1 else 0, true)
        | .FIELD_NONE => (0, false)
  | .MATCH_OFFSET => (offset, true)
  | .MATCH_PLUGIN => (result, true)
  | .MATCH_RANDOM => (rnd, true)
  | .MATCH_RETURN => (if I.groups.contains CS_GRP_RET then 1 else 0, true)
  | .MATCH_SIZE => ((I.size : Int), true)
  | _ => (0, false)

/-- The integer-attribute case of the matchAction entry loop (e9tool.cpp
lines 1254-1303): an entry whose comparison is neither =0 nor ≠0 and whose
value set is empty is left by `break` without touching `pass` (hence
`some pass`); otherwise the attribute value is computed, the comparison
applied (membership for =, the min/max of the sorted value-set keys for the
order comparisons, the singleton quirk for ≠), and `pass && defined` is the
entry's result.  `none` models the `return false` of an invalid
comparison. -/
def evalIntEntry (e : MatchEntry) (I : Insn) (offset rnd : Int) (pass : Bool) :
    Option Bool :=
  if e.cmp ≠ .MATCH_CMP_EQ_ZERO ∧ e.cmp ≠ .MATCH_CMP_NEQ_ZERO ∧
      e.values.length = 0 then
    some pass
  else
    let r := makeMatchValue e.mkind e.idx e.field I offset
      (if e.mkind = .MATCH_PLUGIN then e.pluginResult else 0) rnd
    let x := r.1
    let defined := r.2
    match e.cmp with
    | .MATCH_CMP_EQ_ZERO => some (decide (x = 0) && defined)
    | .MATCH_CMP_NEQ_ZERO => some (decide (x ≠ 0) && defined)
    | .MATCH_CMP_EQ => some (e.values.contains x && defined)
    | .MATCH_CMP_NEQ =>
      some ((if e.values.length = 1 then !(e.values.contains x) else true)
        && defined)
    | .MATCH_CMP_LT =>
      some (decide (x < (e.values.getLast?.getD 0)) && defined)
    | .MATCH_CMP_LEQ =>
      some (decide (x ≤ (e.values.getLast?.getD 0)) && defined)
    | .MATCH_CMP_GT =>
      some (decide (x > (e.values.head?.getD 0)) && defined)
    | .MATCH_CMP_GEQ =>
      some (decide (x ≥ (e.values.head?.getD 0)) && defined)
    | .MATCH_CMP_INVALID => none

/-- One iteration of the matchAction entry loop (e9tool.cpp lines 1239-1306):
given the running `pass` value, the entry's contribution.  `none` models the
early `return false` paths (MATCH_INVALID and an invalid comparison). -/
def evalEntry (e : MatchEntry) (I : Insn) (offset rnd : Int) (pass : Bool) :
    Option Bool :=
  match e.mkind with
  | .MATCH_ASSEMBLY | .MATCH_MNEMONIC =>
    let m := e.regexFn (makeMatchString e.mkind I)
    some (if e.cmp = .MATCH_CMP_NEQ then !m else m)
  | .MATCH_INVALID => none
  | _ => evalIntEntry e I offset rnd pass

/-- The entry loop of matchAction: left-to-right with short-circuit on a
failed entry, returning the final `pass` value. -/
def matchLoop (entries : List MatchEntry) (I : Insn) (offset rnd : Int)
    (pass : Bool) : Bool :=
  match entries with
  | [] => pass
  | e :: rest =>
    match evalEntry e I offset rnd pass with
    | none => false
    | some p => if p then matchLoop rest I offset rnd p else false

/-- matchAction (e9tool.cpp lines 1225-1330): evaluate an action's match
entries against an instruction; `pass` starts false. -/
def matchAction (a : Action) (I : Insn) (offset rnd : Int) : Bool :=
  matchLoop a.entries I offset rnd false

/-- The loop of match (e9tool.cpp lines 1335-1346) with its running index. -/
def matchFrom (I : Insn) (offset rnd : Int) :
    Nat → List Action → Int
  | _, [] => -1
  | idx, a :: rest =>
    if matchAction a I offset rnd then (idx : Int)
    else matchFrom I offset rnd (idx + 1) rest

/-- match (e9tool.cpp lines 1335-1346): index of the first action whose rule
matches, or -1. -/
def matchActions (actions : List Action) (I : Insn) (offset rnd : Int) : Int :=
  matchFrom I offset rnd 0 actions

/-- Which of the five versioned entry points a plugin shared object exports
(the results of the five dlsym calls in openPlugin). -/
structure PluginFuncs where
  hasInitFunc : Bool
  hasInstrFunc : Bool
  hasMatchFunc : Bool
  hasPatchFunc : Bool
  hasFiniFunc : Bool
  deriving DecidableEq, Repr

/-- The rejection test of openPlugin (e9tool.cpp lines 281-287): the load
aborts iff initFunc, instrFunc, patchFunc and finiFunc are all null.  Note
the source does not consult matchFunc here. -/
def openPluginRejects (p : PluginFuncs) : Bool :=
  !p.hasInitFunc && !p.hasInstrFunc && !p.hasPatchFunc && !p.hasFiniFunc

/-- The claim side of C2, from the spec words: a plugin is rejected iff it
exports none of the five entry points. -/
def specPluginRejects (p : PluginFuncs) : Bool :=
  !p.hasInitFunc && !p.hasInstrFunc && !p.hasMatchFunc && !p.hasPatchFunc &&
    !p.hasFiniFunc

/-- The pass-by-pointer legality switch of parseAction (e9tool.cpp lines
922-963): operand-projection kinds and the registers listed there fall into
accepting cases; every other kind reaches the default case, which errors iff
the `&` prefix was given.  (The first case group also parses the operand
index; only the accept/abort outcome is modelled here.) -/
def parseArgPtrCheck (arg : ArgumentKind) (ptr : Bool) : Bool :=
  match arg with
  | .ARGUMENT_OP | .ARGUMENT_SRC | .ARGUMENT_DST
  | .ARGUMENT_IMM | .ARGUMENT_REG | .ARGUMENT_MEM => true
  | .ARGUMENT_AL | .ARGUMENT_AH | .ARGUMENT_BL
  | .ARGUMENT_BH | .ARGUMENT_CL | .ARGUMENT_CH
  | .ARGUMENT_DL | .ARGUMENT_DH | .ARGUMENT_BPL
  | .ARGUMENT_DIL | .ARGUMENT_SIL | .ARGUMENT_R8B
  | .ARGUMENT_R9B | .ARGUMENT_R10B | .ARGUMENT_R11B
  | .ARGUMENT_R12B | .ARGUMENT_R13B | .ARGUMENT_R14B
  | .ARGUMENT_R15B
  | .ARGUMENT_AX | .ARGUMENT_BX | .ARGUMENT_CX
  | .ARGUMENT_DX | .ARGUMENT_BP | .ARGUMENT_DI
  | .ARGUMENT_SI | .ARGUMENT_R8W | .ARGUMENT_R9W
  | .ARGUMENT_R10W | .ARGUMENT_R11W | .ARGUMENT_R12W
  | .ARGUMENT_R13W | .ARGUMENT_R14W | .ARGUMENT_R15W
  | .ARGUMENT_EAX | .ARGUMENT_EBX | .ARGUMENT_ECX
  | .ARGUMENT_EDX | .ARGUMENT_EBP | .ARGUMENT_EDI
  | .ARGUMENT_ESI | .ARGUMENT_R8D | .ARGUMENT_R9D
  | .ARGUMENT_R10D | .ARGUMENT_R11D | .ARGUMENT_R12D
  | .ARGUMENT_R13D | .ARGUMENT_R14D | .ARGUMENT_R15D
  | .ARGUMENT_RAX | .ARGUMENT_RBX | .ARGUMENT_RCX
  | .ARGUMENT_RDX | .ARGUMENT_RBP | .ARGUMENT_RSP
  | .ARGUMENT_RSI | .ARGUMENT_RDI | .ARGUMENT_R8
  | .ARGUMENT_R9 | .ARGUMENT_R10 | .ARGUMENT_R11
  | .ARGUMENT_R12 | .ARGUMENT_R13 | .ARGUMENT_R14
  | .ARGUMENT_R15 | .ARGUMENT_RFLAGS => true
  | _ => !ptr

/-- Whether a kind is one of the x86-64 GPR-family register arguments, at any
of the four widths (8/16/32/64 bit), spl/sp/esp included. -/
def isGprRegister (arg : ArgumentKind) : Bool :=
  match arg with
  | .ARGUMENT_AL | .ARGUMENT_AH | .ARGUMENT_BL
  | .ARGUMENT_BH | .ARGUMENT_CL | .ARGUMENT_CH
  | .ARGUMENT_DL | .ARGUMENT_DH | .ARGUMENT_BPL
  | .ARGUMENT_SPL | .ARGUMENT_DIL | .ARGUMENT_SIL
  | .ARGUMENT_R8B | .ARGUMENT_R9B | .ARGUMENT_R10B
  | .ARGUMENT_R11B | .ARGUMENT_R12B | .ARGUMENT_R13B
  | .ARGUMENT_R14B | .ARGUMENT_R15B
  | .ARGUMENT_AX | .ARGUMENT_BX | .ARGUMENT_CX
  | .ARGUMENT_DX | .ARGUMENT_BP | .ARGUMENT_SP
  | .ARGUMENT_DI | .ARGUMENT_SI
  | .ARGUMENT_R8W | .ARGUMENT_R9W | .ARGUMENT_R10W
  | .ARGUMENT_R11W | .ARGUMENT_R12W | .ARGUMENT_R13W
  | .ARGUMENT_R14W | .ARGUMENT_R15W
  | .ARGUMENT_EAX | .ARGUMENT_EBX | .ARGUMENT_ECX
  | .ARGUMENT_EDX | .ARGUMENT_EBP | .ARGUMENT_ESP
  | .ARGUMENT_EDI | .ARGUMENT_ESI
  | .ARGUMENT_R8D | .ARGUMENT_R9D | .ARGUMENT_R10D
  | .ARGUMENT_R11D | .ARGUMENT_R12D | .ARGUMENT_R13D
  | .ARGUMENT_R14D | .ARGUMENT_R15D
  | .ARGUMENT_RAX | .ARGUMENT_RBX | .ARGUMENT_RCX
  | .ARGUMENT_RDX | .ARGUMENT_RBP | .ARGUMENT_RSP
  | .ARGUMENT_RSI | .ARGUMENT_RDI
  | .ARGUMENT_R8 | .ARGUMENT_R9 | .ARGUMENT_R10
  | .ARGUMENT_R11 | .ARGUMENT_R12 | .ARGUMENT_R13
  | .ARGUMENT_R14 | .ARGUMENT_R15 => true
  | _ => false

/-- The claim side of C5, from the spec words: a `&` argument is legal iff it
is a GPR-family register (at any of the four widths) or rflags. -/
def specPtrLegal (arg : ArgumentKind) : Bool :=
  isGprRegister arg || arg = ArgumentKind.ARGUMENT_RFLAGS

/-- The amended C5 acceptance set: what the switch actually accepts with `&`:
the operand-projection kinds, every GPR register except spl, sp and esp, and
rflags. -/
def amendedPtrLegal (arg : ArgumentKind) : Bool :=
  (match arg with
   | .ARGUMENT_OP | .ARGUMENT_SRC | .ARGUMENT_DST
   | .ARGUMENT_IMM | .ARGUMENT_REG | .ARGUMENT_MEM => true
   | _ => false) ||
  (isGprRegister arg &&
    !(arg = ArgumentKind.ARGUMENT_SPL || arg = ArgumentKind.ARGUMENT_SP ||
      arg = ArgumentKind.ARGUMENT_ESP)) ||
  arg = ArgumentKind.ARGUMENT_RFLAGS

/-- The pre-push fields of one parsed call argument: kind, pointer flag,
value and CSV basename, before the duplicate flag is computed. -/
structure ArgSpec where
  kind : ArgumentKind
  ptr : Bool
  value : Int
  basename : Option String
  deriving DecidableEq, Repr

/-- One iteration of the argument loop tail (e9tool.cpp lines 964-973): scan
the arguments parsed so far for one of the same kind, then push the new
argument with the computed duplicate flag. -/
def pushArg (args : List Argument) (s : ArgSpec) : List Argument :=
  let duplicate := args.any (fun prevArg => prevArg.kind = s.kind)
  args ++ [⟨s.kind, s.ptr, duplicate, s.value, s.basename⟩]

/-- The argument list built by parseAction's loop from the parsed argument
descriptions, in order. -/
def buildArgs (specs : List ArgSpec) : List Argument :=
  specs.foldl pushArg []

/-- The action name computed by parseAction (e9tool.cpp lines 999-1041).  For
ACTION_INVALID the source leaves the name null; the empty string stands for
that here. -/
def actionName (a : Action) : String :=
  match a.kind with
  | .ACTION_PRINT => "print"
  | .ACTION_PASSTHRU => "passthru"
  | .ACTION_TRAP => "trap"
  | .ACTION_CALL =>
    "call_" ++ (if a.clean then "clean_" else "naked_") ++
    (match a.call with
     | .CALL_BEFORE => "before_"
     | .CALL_AFTER => "after_"
     | .CALL_REPLACE => "replace_"
     | .CALL_CONDITIONAL => "conditional_") ++
    a.symbol ++ "_" ++ a.filename
  | .ACTION_PLUGIN => "plugin_" ++ a.filename
  | .ACTION_INVALID => ""

/-- A call-trampoline definition message:
`sendCallTrampolineMessage(out, action->name, action->args, action->clean,
action->call)`. -/
structure CallTrampolineMsg where
  name : String
  args : List Argument
  clean : Bool
  call : CallKind
  deriving DecidableEq, Repr

/-- The call-trampoline part of the action loop in main (e9tool.cpp lines
2011-2059, step 2): walk the actions in order carrying the `have_call` name
set; for each ACTION_CALL whose name is not yet in the set, send one
call-trampoline definition and add the name. -/
def sendCallTrampolines : List Action → List String → List CallTrampolineMsg
  | [], _ => []
  | a :: rest, have_call =>
    match a.kind with
    | .ACTION_CALL =>
      if have_call.contains (actionName a) then
        sendCallTrampolines rest have_call
      else
        ⟨actionName a, a.args, a.clean, a.call⟩ ::
          sendCallTrampolines rest (actionName a :: have_call)
    | _ => sendCallTrampolines rest have_call

/-- The directive messages of the emission phase that the claims inspect. -/
inductive Msg where
  | instr (addr : Int) (size : Nat) (offset : Int)
  | patch (name : String) (offset : Int)
  | pluginPatch (offset : Int)
  deriving DecidableEq, Repr

/-- The instruction message sendInstructionMessage sends for a location:
`(addr, size, offset) = (text_addr + loc.offset, loc.size,
text_offset + loc.offset)`. -/
def instrMsgFor (text_addr text_offset : Int) (loc : Location) : Msg :=
  .instr (text_addr + (loc.offset : Int)) loc.size
    (text_offset + (loc.offset : Int))

/-- sendInstructionMessage (e9tool.cpp lines 1351-1368): returns the updated
location, the message sent (if any), and the C++ return value.  Out of the
short-jump window: nothing happens and false is returned; already emitted:
true with no message; otherwise the emitted flag is set and the instruction
message is sent. -/
def sendInstrMsg (loc : Location) (addr text_addr text_offset : Int) :
    Location × Option Msg × Bool :=
  if (INT8_MAX + 2 + 15 : Int) <
      (((text_addr + (loc.offset : Int)) - addr).natAbs : Int) then
    (loc, none, false)
  else if loc.emitted then
    (loc, none, true)
  else
    ({loc with emitted := true}, some (instrMsgFor text_addr text_offset loc),
      true)

/-- The action table entries the emission loop reads: a builtin action (with
its name, for the patch message) or a plugin action (whose patch emission is
delegated to the plugin's patchFunc when it has one). -/
inductive EmitAction where
  | builtin (name : String)
  | plug (hasPatchFunc : Bool)
  deriving DecidableEq, Repr

/-- The patch-site directives of one to-patch location (e9tool.cpp lines
2213-2231): a patch message named after `option_actions[loc.action]` for a
builtin action, the delegated patchFunc call for a plugin action with a patch
entry point (recorded as a pluginPatch marker), nothing otherwise.  The source
indexes the action table unconditionally; an out-of-range index (impossible
for locations built by the pipeline) contributes nothing here. -/
def siteMsgs (actions : List EmitAction) (text_offset : Int) (loc : Location) :
    List Msg :=
  match actions[loc.action]? with
  | some (.builtin name) => [.patch name (text_offset + (loc.offset : Int))]
  | some (.plug true) => [.pluginPatch (text_offset + (loc.offset : Int))]
  | some (.plug false) => []
  | none => []

/-- The downward window loop `for (j = i; !done && j >= 0; j--)` of main
(e9tool.cpp lines 2205-2207), started at index j. -/
def emitDown (addr ta toff : Int) :
    List Location → List Msg → Nat → List Location × List Msg
  | locs, msgs, j =>
    match locs[j]? with
    | none => (locs, msgs)
    | some loc =>
      let r := sendInstrMsg loc addr ta toff
      let locs' := locs.set j r.1
      let msgs' := msgs ++ r.2.1.toList
      if r.2.2 then
        match j with
        | 0 => (locs', msgs')
        | Nat.succ j' => emitDown addr ta toff locs' msgs' j'
      else (locs', msgs')

/-- The upward window loop `for (j = i + 1; !done && j < count; j++)` of main
(e9tool.cpp lines 2209-2211), started at index j; past-the-end indices end
the loop. -/
def emitUp (addr ta toff : Int) (locs : List Location) (msgs : List Msg)
    (j : Nat) : List Location × List Msg :=
  match h : locs[j]? with
  | none => (locs, msgs)
  | some loc =>
    let r := sendInstrMsg loc addr ta toff
    let locs' := locs.set j r.1
    let msgs' := msgs ++ r.2.1.toList
    if r.2.2 then
      emitUp addr ta toff locs' msgs' (j + 1)
    else (locs', msgs')
termination_by locs.length - j
decreasing_by
  simp only [List.length_set]
  have hj : j < locs.length := by
    by_contra hge
    rw [List.getElem?_eq_none (Nat.le_of_not_lt hge)] at h
    exact Option.noConfusion h
  omega

/-- The body of one outer emission iteration at index i (e9tool.cpp lines
2188-2231): skip non-patch locations; otherwise compute the patch address
from the location's offset, run the two window loops, and append the
patch-site directives. -/
def emitAt (actions : List EmitAction) (ta toff : Int) (locs : List Location)
    (msgs : List Msg) (i : Nat) : List Location × List Msg :=
  match locs[i]? with
  | none => (locs, msgs)
  | some loc =>
    if loc.patch then
      let addr := ta + (loc.offset : Int)
      let r1 := emitDown addr ta toff locs msgs i
      let r2 := emitUp addr ta toff r1.1 r1.2 (i + 1)
      (r2.1, r2.2 ++ siteMsgs actions toff loc)
    else (locs, msgs)

/-- The outer reverse traversal of main (e9tool.cpp lines 2185-2232):
`for (i = count - 1; i >= 0; i--)`; the argument n counts the indices still
to process, so indices n-1, ..., 0 are visited in that order. -/
def emitAll (actions : List EmitAction) (ta toff : Int) :
    List Location → List Msg → Nat → List Location × List Msg
  | locs, msgs, 0 => (locs, msgs)
  | locs, msgs, n + 1 =>
    let r := emitAt actions ta toff locs msgs n
    emitAll actions ta toff r.1 r.2 n

/-- The whole instructions-and-patches phase over a location buffer, with an
empty initial message trace. -/
def emitPatches (actions : List EmitAction) (ta toff : Int)
    (locs : List Location) : List Location × List Msg :=
  emitAll actions ta toff locs [] locs.length

/-- The per-instruction selection of pass one (e9tool.cpp lines 2124-2136, the
non-notify branch): run the rules, then buffer
`Location(offset, I->size, (idx >= 0), idx)`. -/
def passOneLoc (actions : List Action) (I : Insn) (offset rnd : Int) :
    Location :=
  let idx := matchActions actions I offset rnd
  Location.make offset I.size (decide (0 ≤ idx)) idx

/-- The pass-one location of two-pass (notify) mode: the rules are not run, so
idx stays -1 and the location is buffered unpatched. -/
def notifyLoc (offset : Int) (size : Nat) : Location :=
  Location.make offset size false (-1)

/-- The pass-two update of a buffered location (e9tool.cpp lines 2160-2179):
re-match, and replace the location iff some rule matched. -/
def passTwoLoc (loc : Location) (actions : List Action) (I : Insn)
    (offset rnd : Int) : Location :=
  let idx := matchActions actions I offset rnd
  if 0 ≤ idx then Location.make (loc.offset : Int) I.size true idx else loc

/-- The first-rule-wins property: the action at index k matches and every
earlier action fails. -/
def FirstMatch (actions : List Action) (I : Insn) (offset rnd : Int)
    (k : Nat) : Prop :=
  (∃ a, actions[k]? = some a ∧ matchAction a I offset rnd = true) ∧
  ∀ j b, j < k → actions[j]? = some b → matchAction b I offset rnd = false

/-- Closed form of the argument list built by parseAction's loop, carrying
the set of kinds seen so far; used to characterize `buildArgs`. -/
def dupFlags (seen : List ArgumentKind) : List ArgSpec → List Argument
  | [] => []
  | s :: rest =>
    ⟨s.kind, s.ptr, seen.any (fun k => k = s.kind), s.value, s.basename⟩ ::
      dupFlags (seen ++ [s.kind]) rest

/-- Example instruction with no operands. -/
def nopInsn : Insn := ⟨0, 1, "nop", "", [], []⟩

/-- Example instruction at address 7 with no operands. -/
def addr7Insn : Insn := ⟨7, 1, "nop", "", [], []⟩

/-- Match entry `true` (MATCH_TRUE with the default ≠0 comparison). -/
def entryTrue : MatchEntry :=
  ⟨.MATCH_TRUE, -1, .FIELD_NONE, .MATCH_CMP_NEQ_ZERO, [], fun _ => false, 0⟩

/-- Match entry `false` (MATCH_FALSE with the default ≠0 comparison). -/
def entryFalse : MatchEntry :=
  ⟨.MATCH_FALSE, -1, .FIELD_NONE, .MATCH_CMP_NEQ_ZERO, [], fun _ => false, 0⟩

/-- An address = comparison against an empty value set. -/
def entryEmptyEq : MatchEntry :=
  ⟨.MATCH_ADDRESS, -1, .FIELD_NONE, .MATCH_CMP_EQ, [], fun _ => false, 0⟩

/-- A src[0].size = comparison against an empty value set. -/
def entrySrcEmptyEq : MatchEntry :=
  ⟨.MATCH_SRC, 0, .FIELD_SIZE, .MATCH_CMP_EQ, [], fun _ => false, 0⟩

/-- A src[0].size = comparison against the singleton value set {3}. -/
def entrySrcEqThree : MatchEntry :=
  ⟨.MATCH_SRC, 0, .FIELD_SIZE, .MATCH_CMP_EQ, [3], fun _ => false, 0⟩

/-- An addr ≠ comparison against the singleton value set {5}. -/
def entryAddrNeqFive : MatchEntry :=
  ⟨.MATCH_ADDRESS, -1, .FIELD_NONE, .MATCH_CMP_NEQ, [5], fun _ => false, 0⟩

/-- An addr ≠ comparison against the two-element value set {5, 9}. -/
def entryAddrNeqMulti : MatchEntry :=
  ⟨.MATCH_ADDRESS, -1, .FIELD_NONE, .MATCH_CMP_NEQ, [5, 9], fun _ => false, 0⟩

/-- A call action `call[clean,before] f(addr)@probe.bin`. -/
def callActA : Action :=
  ⟨[], .ACTION_CALL, "probe.bin", "f",
    [⟨.ARGUMENT_ADDR, false, false, 0, none⟩], true, .CALL_BEFORE⟩

/-- A call action `call[clean,before] f(size)@probe.bin`: the same symbol,
binary, position and frame policy as `callActA`, different arguments. -/
def callActB : Action :=
  ⟨[], .ACTION_CALL, "probe.bin", "f",
    [⟨.ARGUMENT_BYTES_SIZE, false, false, 0, none⟩], true, .CALL_BEFORE⟩

/-- A trap action guarded by a never-matching rule. -/
def actNoMatch : Action :=
  ⟨[entryFalse], .ACTION_TRAP, "", "", [], false, .CALL_BEFORE⟩

/-- A print action guarded by an always-matching rule. -/
def actMatch : Action :=
  ⟨[entryTrue], .ACTION_PRINT, "", "", [], false, .CALL_BEFORE⟩

/-- A not-yet-emitted, non-patch location whose offset puts it exactly
INT8_MAX + 17 bytes after address 0. -/
def locAt144 : Location := ⟨144, 1, false, false, 0⟩

/-- A to-patch location at offset 0 selecting action 0. -/
def locPatch0 : Location := ⟨0, 1, false, true, 0⟩

/-- The emission-phase trace invariant: (a) each location's instruction
message occurs in the trace exactly once if its emitted flag is set and not
at all otherwise; (b) every patch-site directive of a location is preceded in
the trace by that location's instruction message. -/
def MsgInv (actions : List EmitAction) (ta toff : Int)
    (locs : List Location) (msgs : List Msg) : Prop :=
  (∀ (j : Nat) (a : Location), locs[j]? = some a →
     msgs.count (instrMsgFor ta toff a) = (if a.emitted then 1 else 0)) ∧
  (∀ (j : Nat) (a : Location) (m : Msg), locs[j]? = some a →
     m ∈ siteMsgs actions toff a →
     ∀ pre suf, msgs = pre ++ m :: suf → instrMsgFor ta toff a ∈ pre)

/-- How one emission step (or a sequence of them) transforms the state: the
offset column is unchanged, every location keeps its offset, size, patch and
action fields and its emitted flag can only be set, the trace only grows at
the end, and the trace invariant is preserved (given offset-distinct
locations). -/
def StepOk (actions : List EmitAction) (ta toff : Int)
    (locs : List Location) (msgs : List Msg)
    (locs' : List Location) (msgs' : List Msg) : Prop :=
  locs'.map Location.offset = locs.map Location.offset ∧
  (∀ (j : Nat) (a : Location), locs[j]? = some a →
     ∃ b : Location, locs'[j]? = some b ∧
       b.offset = a.offset ∧ b.size = a.size ∧ b.patch = a.patch ∧
       b.action = a.action ∧ (a.emitted = true → b.emitted = true)) ∧
  (∃ ext, msgs' = msgs ++ ext) ∧
  ((locs.map Location.offset).Nodup → MsgInv actions ta toff locs msgs →
    MsgInv actions ta toff locs' msgs')

/-- C2: openPlugin's rejection check (lines 281-287) tests only initFunc,
instrFunc, patchFunc and finiFunc, omitting matchFunc: a plugin exporting
only e9_plugin_match_v1 is rejected, although it exports one of the five
entry points, contradicting the code's own diagnostic ("does not export any
plugin API functions") and the spec. -/
theorem c2_match_only_plugin_rejected :
    openPluginRejects ⟨false, false, true, false, false⟩ = true ∧
    specPluginRejects ⟨false, false, true, false, false⟩ = false := by
  decide

/-- C5 counterexample: the claim's pointer-legality predicate (GPR family at
any width, or rflags) disagrees with the parser: `&sp` is rejected by the
switch although sp is a 16-bit GPR, and `&op` is accepted although op is not
a register. -/
theorem c5_counterexample :
    parseArgPtrCheck .ARGUMENT_SP true = false ∧
    specPtrLegal .ARGUMENT_SP = true ∧
    parseArgPtrCheck .ARGUMENT_OP true = true ∧
    specPtrLegal .ARGUMENT_OP = false := by
  decide

/-- C5 amended: a `&` argument is accepted exactly when its kind is an
operand-projection kind (op, src, dst, imm, reg, mem), a GPR register other
than spl, sp and esp, or rflags; every other kind (rip included) errors. -/
theorem c5_ptr_legality (arg : ArgumentKind) :
    parseArgPtrCheck arg true = amendedPtrLegal arg := by
  cases arg <;> rfl

/-- C4 counterexample: a location at distance exactly INT8_MAX + 17 = 144
bytes from the patch address is still inside the window: its instruction
message IS sent and sendInstructionMessage returns true. -/
theorem c4_counterexample :
    (((0 : Int) + (locAt144.offset : Int)) - 0).natAbs =
      (INT8_MAX + 17 : Int).toNat ∧
    (sendInstrMsg locAt144 0 0 0).2.1 = some (Msg.instr 144 1 144) ∧
    (sendInstrMsg locAt144 0 0 0).2.2 = true := by
  decide

/-- C4 amended: for a not-yet-emitted location, an instruction message is
sent iff the distance from the location to the patch address is at most
INT8_MAX + 2 + 15 = 144 bytes; in particular distance INT8_MAX + 17 is still
within short-jump reach, and out-of-reach starts at INT8_MAX + 18. -/
theorem c4_window_boundary (loc : Location) (addr ta toff : Int)
    (hemit : loc.emitted = false) :
    (sendInstrMsg loc addr ta toff).2.1.isSome = true ↔
      ((((ta + (loc.offset : Int)) - addr).natAbs : Int) ≤ INT8_MAX + 2 + 15) := by
  unfold sendInstrMsg
  by_cases h : (INT8_MAX + 2 + 15 : Int) <
      ((((ta + (loc.offset : Int)) - addr).natAbs : Int))
  · rw [if_pos h]
    simp only [Option.isSome_none]
    constructor
    · intro hfalse; exact absurd hfalse (by decide)
    · intro hle; exact absurd h (not_lt.mpr hle)
  · rw [if_neg h, if_neg (by rw [hemit]; exact Bool.false_ne_true)]
    simp only [Option.isSome_some, true_iff]
    exact not_lt.mp h

/-- C4 witness: the amended theorem applied at the concrete boundary
location. -/
theorem c4_window_boundary_witness :
    locAt144.emitted = false ∧
    ((sendInstrMsg locAt144 0 0 0).2.1.isSome = true ↔
      (((((0 : Int) + (locAt144.offset : Int)) - 0).natAbs : Int) ≤
        INT8_MAX + 2 + 15)) :=
  ⟨rfl, c4_window_boundary locAt144 0 0 0 rfl⟩

/-- Helper: for every non-string, non-invalid match kind, entry evaluation
takes the integer branch. -/
theorem evalEntry_int (e : MatchEntry) (I : Insn) (offset rnd : Int)
    (pass : Bool) (h1 : e.mkind ≠ .MATCH_INVALID)
    (h2 : e.mkind ≠ .MATCH_ASSEMBLY) (h3 : e.mkind ≠ .MATCH_MNEMONIC) :
    evalEntry e I offset rnd pass = evalIntEntry e I offset rnd pass := by
  obtain ⟨mk, idx, field, cmp, values, rfn, pr⟩ := e
  cases mk <;> first | rfl | simp_all

/-- C3 counterexample: an integer entry with an empty value set and `=`
comparison does not evaluate to false when an earlier entry passed: as the
second entry of a rule after a passing entry it keeps the previous result,
so the whole rule matches. -/
theorem c3_counterexample :
    evalEntry entryEmptyEq nopInsn 0 0 true = some true ∧
    matchLoop [entryTrue, entryEmptyEq] nopInsn 0 0 false = true := by
  decide

/-- C3 amended: an integer entry whose comparison is neither =0 nor ≠0 and
whose value set is empty is skipped: it leaves the running result unchanged
(false as the first entry of a rule, true after a passing prefix). -/
theorem c3_empty_set_skips (e : MatchEntry) (I : Insn) (offset rnd : Int)
    (pass : Bool) (h1 : e.mkind ≠ .MATCH_INVALID)
    (h2 : e.mkind ≠ .MATCH_ASSEMBLY) (h3 : e.mkind ≠ .MATCH_MNEMONIC)
    (hc1 : e.cmp ≠ .MATCH_CMP_EQ_ZERO) (hc2 : e.cmp ≠ .MATCH_CMP_NEQ_ZERO)
    (hv : e.values = []) :
    evalEntry e I offset rnd pass = some pass := by
  rw [evalEntry_int e I offset rnd pass h1 h2 h3]
  unfold evalIntEntry
  rw [if_pos ⟨hc1, hc2, by simp [hv]⟩]

/-- C3 witness: the amended theorem applied at the concrete empty-set entry,
with the running result true. -/
theorem c3_empty_set_skips_witness :
    (entryEmptyEq.cmp ≠ .MATCH_CMP_EQ_ZERO ∧ entryEmptyEq.values = []) ∧
    evalEntry entryEmptyEq nopInsn 0 0 true = some true :=
  ⟨⟨by decide, rfl⟩,
   c3_empty_set_skips entryEmptyEq nopInsn 0 0 true (by decide) (by decide)
     (by decide) (by decide) (by decide) rfl⟩

/-- C6: for an integer entry with comparison ≠ whose attribute value is
defined, a singleton value set {v} passes iff the value differs from v, and
a value set with two or more elements always passes. -/
theorem c6_neq_singleton_multi (e : MatchEntry) (I : Insn) (offset rnd : Int)
    (pass : Bool) (h1 : e.mkind ≠ .MATCH_INVALID)
    (h2 : e.mkind ≠ .MATCH_ASSEMBLY) (h3 : e.mkind ≠ .MATCH_MNEMONIC)
    (hc : e.cmp = .MATCH_CMP_NEQ)
    (hdef : (makeMatchValue e.mkind e.idx e.field I offset
      (if e.mkind = .MATCH_PLUGIN then e.pluginResult else 0) rnd).2 = true) :
    (∀ v, e.values = [v] →
      evalEntry e I offset rnd pass = some (decide
        ((makeMatchValue e.mkind e.idx e.field I offset
          (if e.mkind = .MATCH_PLUGIN then e.pluginResult else 0) rnd).1 ≠ v))) ∧
    (2 ≤ e.values.length → evalEntry e I offset rnd pass = some true) := by
  have hint := evalEntry_int e I offset rnd pass h1 h2 h3
  constructor
  · intro v hv
    rw [hint]
    unfold evalIntEntry
    rw [if_neg (by simp [hv, hc])]
    simp only [hc, hv, hdef, List.length_singleton, if_pos rfl,
      List.contains_cons, List.contains_nil, Bool.or_false, Bool.and_true]
    by_cases hx : (makeMatchValue e.mkind e.idx e.field I offset
        (if e.mkind = .MATCH_PLUGIN then e.pluginResult else 0) rnd).1 = v <;>
      simp [hx]
  · intro hlen
    rw [hint]
    unfold evalIntEntry
    rw [if_neg (by rw [hc]; rintro ⟨-, -, hz⟩; omega)]
    simp only [hc, hdef]
    rw [if_neg (by omega)]
    simp

/-- C6 witness: the theorem applied at a singleton ≠ entry (addr ≠ 5 at
address 7) and a two-element ≠ entry (addr ≠ 5,9 at address 7): both pass. -/
theorem c6_neq_singleton_multi_witness :
    evalEntry entryAddrNeqFive addr7Insn 0 0 false = some true ∧
    evalEntry entryAddrNeqMulti addr7Insn 0 0 false = some true := by
  constructor
  · have h := (c6_neq_singleton_multi entryAddrNeqFive addr7Insn 0 0 false
      (by decide) (by decide) (by decide) rfl (by decide)).1 5 rfl
    rw [h]; decide
  · exact (c6_neq_singleton_multi entryAddrNeqMulti addr7Insn 0 0 false
      (by decide) (by decide) (by decide) rfl (by decide)).2 (by decide)

/-- C9 counterexample: an operand-bearing entry with an explicit index whose
operand is missing does NOT evaluate to false when its value set is empty
and the comparison is `=`: the empty-set skip fires first and the previous
result (true) is kept. -/
theorem c9_counterexample :
    getOperand nopInsn.operands 0 (matchOpType .MATCH_SRC)
      (matchOpAccess .MATCH_SRC) = none ∧
    evalEntry entrySrcEmptyEq nopInsn 0 0 true = some true := by
  decide

/-- C9 amended: an operand-bearing entry with an explicit index whose operand
is missing evaluates to false for every valid comparison operator (=0 and ≠0
included), provided the value set is nonempty or the comparison is =0/≠0
(an empty value set with any other comparison is skipped instead, see C3). -/
theorem c9_missing_operand_fails (e : MatchEntry) (I : Insn) (offset rnd : Int)
    (pass : Bool)
    (hk : e.mkind = .MATCH_OP ∨ e.mkind = .MATCH_SRC ∨ e.mkind = .MATCH_DST ∨
      e.mkind = .MATCH_IMM ∨ e.mkind = .MATCH_REG ∨ e.mkind = .MATCH_MEM)
    (hidx : 0 ≤ e.idx)
    (hop : getOperand I.operands e.idx.toNat (matchOpType e.mkind)
      (matchOpAccess e.mkind) = none)
    (hval : e.values ≠ [] ∨ e.cmp = .MATCH_CMP_EQ_ZERO ∨
      e.cmp = .MATCH_CMP_NEQ_ZERO)
    (hcmp : e.cmp ≠ .MATCH_CMP_INVALID) :
    evalEntry e I offset rnd pass = some false := by
  have hval' : ¬(e.cmp ≠ .MATCH_CMP_EQ_ZERO ∧ e.cmp ≠ .MATCH_CMP_NEQ_ZERO ∧
      e.values.length = 0) := by
    rintro ⟨hA, hB, hC⟩
    rcases hval with hv | hv | hv
    · exact hv (List.length_eq_zero.mp hC)
    · exact hA hv
    · exact hB hv
  have hmmv : makeMatchValue e.mkind e.idx e.field I offset
      (if e.mkind = .MATCH_PLUGIN then e.pluginResult else 0) rnd =
      (0, false) := by
    rcases hk with h | h | h | h | h | h <;>
    · rw [h] at hop ⊢
      simp only [makeMatchValue]
      rw [if_neg (show ¬e.idx < 0 by omega)]
      simp [hop]
  have h1 : e.mkind ≠ .MATCH_INVALID := by
    rcases hk with h | h | h | h | h | h <;> rw [h] <;> decide
  have h2 : e.mkind ≠ .MATCH_ASSEMBLY := by
    rcases hk with h | h | h | h | h | h <;> rw [h] <;> decide
  have h3 : e.mkind ≠ .MATCH_MNEMONIC := by
    rcases hk with h | h | h | h | h | h <;> rw [h] <;> decide
  rw [evalEntry_int e I offset rnd pass h1 h2 h3]
  unfold evalIntEntry
  rw [if_neg hval']
  cases hc : e.cmp <;> simp_all [hmmv]

/-- C9 witness: the amended theorem applied at a src[0].size = {3} entry on
an instruction with no operands: the entry evaluates to false even though
the previous result was true. -/
theorem c9_missing_operand_fails_witness :
    (0 ≤ entrySrcEqThree.idx ∧
     getOperand nopInsn.operands entrySrcEqThree.idx.toNat
       (matchOpType entrySrcEqThree.mkind)
       (matchOpAccess entrySrcEqThree.mkind) = none ∧
     entrySrcEqThree.values ≠ []) ∧
    evalEntry entrySrcEqThree nopInsn 0 0 true = some false :=
  ⟨⟨by decide, by decide, by decide⟩,
   c9_missing_operand_fails entrySrcEqThree nopInsn 0 0 true
     (Or.inr (Or.inl rfl)) (by decide) (by decide) (Or.inl (by decide))
     (by decide)⟩

/-- Helper: the match loop either returns -1 with no constraint used here, or
base + k where the k-th remaining action is the first whose rule matches. -/
theorem matchFrom_cases (I : Insn) (offset rnd : Int) :
    ∀ (acts : List Action) (base : Nat),
      matchFrom I offset rnd base acts = -1 ∨
      ∃ k : Nat, matchFrom I offset rnd base acts = (base : Int) + (k : Int) ∧
        (∃ a, acts[k]? = some a ∧ matchAction a I offset rnd = true) ∧
        ∀ j b, j < k → acts[j]? = some b →
          matchAction b I offset rnd = false := by
  intro acts
  induction acts with
  | nil => intro base; exact Or.inl rfl
  | cons a rest ih =>
    intro base
    by_cases hm : matchAction a I offset rnd = true
    · refine Or.inr ⟨0, by simp [matchFrom, hm], ⟨a, by simp, hm⟩, ?_⟩
      intro j b hj _
      omega
    · have hstep : matchFrom I offset rnd base (a :: rest) =
          matchFrom I offset rnd (base + 1) rest := by
        simp [matchFrom, hm]
      rcases ih (base + 1) with h | ⟨k, hk, ⟨a', ha', hma'⟩, hall⟩
      · exact Or.inl (hstep.trans h)
      · refine Or.inr ⟨k + 1, ?_, ⟨a', by simpa using ha', hma'⟩, ?_⟩
        · rw [hstep, hk]; push_cast; ring
        · intro j b hj hjb
          cases j with
          | zero =>
            have hb : a = b := by simpa using hjb
            rw [← hb]
            exact eq_false_of_ne_true hm
          | succ j' =>
            exact hall j' b (by omega) (by simpa using hjb)

/-- C7: at most one action index is recorded per Location (it is a single
field), and when the location is marked to-patch the recorded index is the
smallest command-line index whose rule matches the instruction, in both the
one-pass selection and the two-pass (notify) update. -/
theorem c7_first_rule_wins (actions : List Action) (I : Insn)
    (offset rnd : Int) (poff : Int) (psz : Nat)
    (h1024 : actions.length ≤ 1024) :
    ((passOneLoc actions I offset rnd).patch = true →
      FirstMatch actions I offset rnd (passOneLoc actions I offset rnd).action) ∧
    ((passTwoLoc (notifyLoc poff psz) actions I offset rnd).patch = true →
      FirstMatch actions I offset rnd
        (passTwoLoc (notifyLoc poff psz) actions I offset rnd).action) := by
  rcases matchFrom_cases I offset rnd actions 0 with hneg | ⟨k, hk, hex, hall⟩
  · have hm1 : matchActions actions I offset rnd = -1 := hneg
    constructor
    · intro hp
      have hpe : (passOneLoc actions I offset rnd).patch =
          decide (0 ≤ matchActions actions I offset rnd) := rfl
      rw [hpe, hm1] at hp
      exact absurd hp (by decide)
    · intro hp
      have hloc : passTwoLoc (notifyLoc poff psz) actions I offset rnd =
          notifyLoc poff psz := by
        simp only [passTwoLoc]
        rw [hm1, if_neg (by decide)]
      rw [hloc] at hp
      simp [notifyLoc, Location.make] at hp
  · have hkl : k < actions.length := by
      obtain ⟨a, ha, -⟩ := hex
      by_contra hge
      rw [List.getElem?_eq_none (Nat.le_of_not_lt hge)] at ha
      exact Option.noConfusion ha
    have hidx : matchActions actions I offset rnd = (k : Int) := by
      have : matchActions actions I offset rnd = (0 : Int) + (k : Int) := hk
      rw [this]; ring
    have hact : (((k : Nat) : Int) % (2 ^ 10)).toNat = k := by
      have h2 : (2 : Int) ^ 10 = 1024 := by norm_num
      have hklt : (k : Int) < 2 ^ 10 := by
        rw [h2]
        exact_mod_cast lt_of_lt_of_le hkl h1024
      rw [Int.emod_eq_of_lt (Int.natCast_nonneg k) hklt]
      simp
    constructor
    · intro _
      have ha : (passOneLoc actions I offset rnd).action =
          ((matchActions actions I offset rnd) % (2 ^ 10)).toNat := rfl
      rw [ha, hidx, hact]
      exact ⟨hex, hall⟩
    · intro _
      have hloc : passTwoLoc (notifyLoc poff psz) actions I offset rnd =
          Location.make (((notifyLoc poff psz).offset : Nat) : Int) I.size true
            ((k : Nat) : Int) := by
        simp only [passTwoLoc]
        rw [hidx, if_pos (Int.natCast_nonneg k)]
      have ha : (passTwoLoc (notifyLoc poff psz) actions I offset rnd).action =
          (((k : Nat) : Int) % (2 ^ 10)).toNat := by
        rw [hloc]; rfl
      rw [ha, hact]
      exact ⟨hex, hall⟩

/-- C7 witness: the theorem applied to a two-action table whose first rule
never matches and whose second always does: the recorded index is 1 and
index 0 fails. -/
theorem c7_first_rule_wins_witness :
    ([actNoMatch, actMatch].length ≤ 1024) ∧
    ((passOneLoc [actNoMatch, actMatch] nopInsn 0 0).patch = true →
      FirstMatch [actNoMatch, actMatch] nopInsn 0 0
        (passOneLoc [actNoMatch, actMatch] nopInsn 0 0).action) ∧
    ((passTwoLoc (notifyLoc 0 1) [actNoMatch, actMatch] nopInsn 0 0).patch =
        true →
      FirstMatch [actNoMatch, actMatch] nopInsn 0 0
        (passTwoLoc (notifyLoc 0 1) [actNoMatch, actMatch] nopInsn 0 0).action) :=
  ⟨by decide,
   (c7_first_rule_wins [actNoMatch, actMatch] nopInsn 0 0 0 1 (by decide)).1,
   (c7_first_rule_wins [actNoMatch, actMatch] nopInsn 0 0 0 1 (by decide)).2⟩

/-- Helper: the cons unfolding of `dupFlags`. -/
theorem dupFlags_cons (seen : List ArgumentKind) (s : ArgSpec)
    (rest : List ArgSpec) :
    dupFlags seen (s :: rest) =
      ⟨s.kind, s.ptr, seen.any (fun k => k = s.kind), s.value, s.basename⟩ ::
        dupFlags (seen ++ [s.kind]) rest := rfl

/-- Helper: the argument-building fold equals the closed form `dupFlags`. -/
theorem buildArgs_eq_dupFlags :
    ∀ (specs : List ArgSpec) (args : List Argument),
      specs.foldl pushArg args =
        args ++ dupFlags (args.map Argument.kind) specs := by
  intro specs
  induction specs with
  | nil => intro args; simp [dupFlags]
  | cons s rest ih =>
    intro args
    have hdup : args.any (fun prevArg => prevArg.kind = s.kind) =
        (args.map Argument.kind).any (fun k => k = s.kind) := by
      induction args with
      | nil => rfl
      | cons a as iha => simp [iha]
    have hmap : (pushArg args s).map Argument.kind =
        args.map Argument.kind ++ [s.kind] := by
      simp [pushArg]
    rw [List.foldl_cons, ih (pushArg args s), hmap]
    show (args ++ [_]) ++ _ = args ++ _
    rw [List.append_assoc, List.singleton_append, dupFlags_cons, hdup]

/-- Helper: in the closed form, the duplicate flag of the i-th argument holds
iff its kind was initially seen or some earlier output has the same kind. -/
theorem dupFlags_duplicate_iff :
    ∀ (specs : List ArgSpec) (seen : List ArgumentKind) (i : Nat)
      (ai : Argument), (dupFlags seen specs)[i]? = some ai →
      (ai.duplicate = true ↔ (∃ k ∈ seen, k = ai.kind) ∨
        ∃ j aj, j < i ∧ (dupFlags seen specs)[j]? = some aj ∧
          aj.kind = ai.kind) := by
  intro specs
  induction specs with
  | nil => intro seen i ai h; simp [dupFlags] at h
  | cons s rest ih =>
    intro seen i ai h
    cases i with
    | zero =>
      have hai : ai = ⟨s.kind, s.ptr, seen.any (fun k => k = s.kind),
          s.value, s.basename⟩ := by
        have := h
        simp [dupFlags] at this
        exact this.symm
      subst hai
      simp only
      constructor
      · intro hd
        left
        have := List.any_eq_true.mp hd
        simpa using this
      · rintro (⟨k, hk, hke⟩ | ⟨j, aj, hj, -, -⟩)
        · exact List.any_eq_true.mpr ⟨k, hk, by simpa using hke⟩
        · omega
    | succ i' =>
      have h' : (dupFlags (seen ++ [s.kind]) rest)[i']? = some ai := by
        simpa [dupFlags] using h
      rw [ih (seen ++ [s.kind]) i' ai h']
      constructor
      · rintro (⟨k, hk, hke⟩ | ⟨j, aj, hj, hjget, hkind⟩)
        · rcases List.mem_append.mp hk with hk' | hk'
          · exact Or.inl ⟨k, hk', hke⟩
          · right
            refine ⟨0, ⟨s.kind, s.ptr, seen.any (fun k => k = s.kind),
              s.value, s.basename⟩, Nat.succ_pos i', by simp [dupFlags], ?_⟩
            have hks : k = s.kind := by simpa using hk'
            simp only
            rw [← hks, hke]
        · exact Or.inr ⟨j + 1, aj, by omega,
            by simpa [dupFlags] using hjget, hkind⟩
      · rintro (⟨k, hk, hke⟩ | ⟨j, aj, hj, hjget, hkind⟩)
        · exact Or.inl ⟨k, List.mem_append.mpr (Or.inl hk), hke⟩
        · cases j with
          | zero =>
            have haj : aj = ⟨s.kind, s.ptr, seen.any (fun k => k = s.kind),
                s.value, s.basename⟩ := by
              have := hjget
              simp [dupFlags] at this
              exact this.symm
            left
            refine ⟨s.kind, List.mem_append.mpr (Or.inr (by simp)), ?_⟩
            rw [← hkind, haj]
          | succ j' =>
            exact Or.inr ⟨j', aj, by omega,
              by simpa [dupFlags] using hjget, hkind⟩

/-- C10: in a parsed call action's argument list, the duplicate flag of the
i-th argument is true iff some earlier argument in the same list has the same
argument kind — the scan at e9tool.cpp:964-973 compares kinds only, so two
arguments differing in literal value, pointer flag, operand index or CSV
basename still count as duplicates. -/
theorem c10_duplicate_iff_same_kind (specs : List ArgSpec) (i : Nat)
    (ai : Argument) (hi : (buildArgs specs)[i]? = some ai) :
    (ai.duplicate = true ↔
      ∃ j aj, j < i ∧ (buildArgs specs)[j]? = some aj ∧
        aj.kind = ai.kind) := by
  have hb : buildArgs specs = dupFlags [] specs := by
    unfold buildArgs
    rw [buildArgs_eq_dupFlags specs []]
    simp
  rw [hb] at hi ⊢
  rw [dupFlags_duplicate_iff specs [] i ai hi]
  constructor
  · rintro (⟨k, hk, -⟩ | h)
    · exact absurd hk (List.not_mem_nil k)
    · exact h
  · exact Or.inr

/-- C10 witness: two integer-literal arguments with different values: the
second is flagged as a duplicate of the first. -/
theorem c10_duplicate_iff_same_kind_witness :
    ((buildArgs [⟨.ARGUMENT_INTEGER, false, 1, none⟩,
        ⟨.ARGUMENT_INTEGER, false, 2, none⟩])[1]? =
      some ⟨.ARGUMENT_INTEGER, false, true, 2, none⟩) ∧
    ((⟨.ARGUMENT_INTEGER, false, true, 2, none⟩ : Argument).duplicate = true ↔
      ∃ j aj, j < 1 ∧
        (buildArgs [⟨.ARGUMENT_INTEGER, false, 1, none⟩,
          ⟨.ARGUMENT_INTEGER, false, 2, none⟩])[j]? = some aj ∧
        aj.kind = (⟨.ARGUMENT_INTEGER, false, true, 2, none⟩ : Argument).kind) :=
  ⟨by decide,
   c10_duplicate_iff_same_kind
     [⟨.ARGUMENT_INTEGER, false, 1, none⟩, ⟨.ARGUMENT_INTEGER, false, 2, none⟩]
     1 ⟨.ARGUMENT_INTEGER, false, true, 2, none⟩ (by decide)⟩

/-- Helper: for any carried name set, the call-trampoline loop emits
pairwise-distinct names, namely exactly the names of the call actions that
are not already in the set. -/
theorem sendCallTrampolines_names :
    ∀ (acts : List Action) (seen : List String),
      ((sendCallTrampolines acts seen).map CallTrampolineMsg.name).Nodup ∧
      ∀ n, n ∈ (sendCallTrampolines acts seen).map CallTrampolineMsg.name ↔
        ((∃ a ∈ acts, a.kind = .ACTION_CALL ∧ actionName a = n) ∧
          ¬n ∈ seen) := by
  intro acts
  induction acts with
  | nil =>
    intro seen
    refine ⟨by simp [sendCallTrampolines], ?_⟩
    intro n
    simp [sendCallTrampolines]
  | cons a rest ih =>
    intro seen
    by_cases hk : a.kind = ActionKind.ACTION_CALL
    · by_cases hs : seen.contains (actionName a) = true
      · have hmem : actionName a ∈ seen := by simpa using hs
        have hred : sendCallTrampolines (a :: rest) seen =
            sendCallTrampolines rest seen := by
          simp [sendCallTrampolines, hk, hmem]
        rcases ih seen with ⟨ihn, ihm⟩
        refine ⟨hred ▸ ihn, ?_⟩
        intro n
        rw [hred, ihm n]
        constructor
        · rintro ⟨⟨b, hb, hbc, hbn⟩, hns⟩
          exact ⟨⟨b, List.mem_cons_of_mem a hb, hbc, hbn⟩, hns⟩
        · rintro ⟨⟨b, hb, hbc, hbn⟩, hns⟩
          rcases List.mem_cons.mp hb with rfl | hb'
          · exact absurd (hbn ▸ hmem) hns
          · exact ⟨⟨b, hb', hbc, hbn⟩, hns⟩
      · have hmem : ¬actionName a ∈ seen := by simpa using hs
        have hred : sendCallTrampolines (a :: rest) seen =
            ⟨actionName a, a.args, a.clean, a.call⟩ ::
              sendCallTrampolines rest (actionName a :: seen) := by
          simp [sendCallTrampolines, hk, hmem]
        rcases ih (actionName a :: seen) with ⟨ihn, ihm⟩
        constructor
        · rw [hred]
          refine List.nodup_cons.mpr ⟨?_, ihn⟩
          intro hin
          rcases ((ihm (actionName a)).mp (by simpa using hin)) with ⟨-, hns⟩
          exact hns (List.mem_cons_self _ _)
        · intro n
          rw [hred]
          simp only [List.map_cons, List.mem_cons]
          rw [ihm n]
          constructor
          · rintro (rfl | ⟨⟨b, hb, hbc, hbn⟩, hns⟩)
            · exact ⟨⟨a, Or.inl rfl, hk, rfl⟩, hmem⟩
            · refine ⟨⟨b, Or.inr hb, hbc, hbn⟩, ?_⟩
              intro hin
              exact hns (List.mem_cons_of_mem _ hin)
          · rintro ⟨⟨b, hb, hbc, hbn⟩, hns⟩
            by_cases hn : n = actionName a
            · exact Or.inl hn
            · rcases hb with rfl | hb'
              · exact absurd hbn.symm hn
              · refine Or.inr ⟨⟨b, hb', hbc, hbn⟩, ?_⟩
                intro hin
                rcases List.mem_cons.mp hin with h' | h'
                · exact hn h'
                · exact hns h'
    · have hred : sendCallTrampolines (a :: rest) seen =
          sendCallTrampolines rest seen := by
        cases hka : a.kind <;>
          first
          | exact absurd hka hk
          | simp [sendCallTrampolines, hka]
      rcases ih seen with ⟨ihn, ihm⟩
      refine ⟨hred ▸ ihn, ?_⟩
      intro n
      rw [hred, ihm n]
      constructor
      · rintro ⟨⟨b, hb, hbc, hbn⟩, hns⟩
        exact ⟨⟨b, List.mem_cons_of_mem a hb, hbc, hbn⟩, hns⟩
      · rintro ⟨⟨b, hb, hbc, hbn⟩, hns⟩
        rcases List.mem_cons.mp hb with rfl | hb'
        · exact absurd hbc hk
        · exact ⟨⟨b, hb', hbc, hbn⟩, hns⟩

/-- C1 counterexample: two call actions agreeing on symbol, binary,
call-position and frame policy but with different argument lists are two
distinct (symbol, binary, call-position, frame-policy, args) tuples, yet
only ONE call-trampoline definition is emitted for them: the trampoline
identity is the name, which does not encode the arguments. -/
theorem c1_counterexample :
    callActA.symbol = callActB.symbol ∧
    callActA.filename = callActB.filename ∧
    callActA.call = callActB.call ∧
    callActA.clean = callActB.clean ∧
    callActA.args ≠ callActB.args ∧
    (sendCallTrampolines [callActA, callActB] []).length = 1 := by
  refine ⟨rfl, rfl, rfl, rfl, by decide, ?_⟩
  decide

/-- C1 amended: one call-trampoline definition is sent per distinct
trampoline NAME, the name being
call_(clean|naked)_(before|after|replace|conditional)_(symbol)_(binary):
the emitted name set equals the set of call actions' names, without
repetition; argument lists are not part of the identity. -/
theorem c1_trampoline_per_name (acts : List Action) :
    ((sendCallTrampolines acts []).map CallTrampolineMsg.name).Nodup ∧
    ∀ n, n ∈ (sendCallTrampolines acts []).map CallTrampolineMsg.name ↔
      ∃ a ∈ acts, a.kind = .ACTION_CALL ∧ actionName a = n := by
  rcases sendCallTrampolines_names acts [] with ⟨hn, hm⟩
  refine ⟨hn, ?_⟩
  intro n
  rw [hm n]
  simp

/-- Helper: sendInstructionMessage never changes the offset, size, patch and
action fields, and never clears the emitted flag. -/
theorem sendInstrMsg_fields (loc : Location) (addr ta toff : Int) :
    (sendInstrMsg loc addr ta toff).1.offset = loc.offset ∧
    (sendInstrMsg loc addr ta toff).1.size = loc.size ∧
    (sendInstrMsg loc addr ta toff).1.patch = loc.patch ∧
    (sendInstrMsg loc addr ta toff).1.action = loc.action ∧
    (loc.emitted = true → (sendInstrMsg loc addr ta toff).1.emitted = true) := by
  unfold sendInstrMsg
  split
  · exact ⟨rfl, rfl, rfl, rfl, fun h => h⟩
  · split
    · exact ⟨rfl, rfl, rfl, rfl, fun h => h⟩
    · exact ⟨rfl, rfl, rfl, rfl, fun _ => rfl⟩

/-- Helper: sendInstructionMessage either sends nothing and leaves the
location unchanged, or sends exactly the location's instruction message,
flipping the emitted flag from false to true. -/
theorem sendInstrMsg_msg_cases (loc : Location) (addr ta toff : Int) :
    ((sendInstrMsg loc addr ta toff).2.1 = none ∧
     (sendInstrMsg loc addr ta toff).1 = loc) ∨
    ((sendInstrMsg loc addr ta toff).2.1 = some (instrMsgFor ta toff loc) ∧
     loc.emitted = false ∧
     (sendInstrMsg loc addr ta toff).1 = {loc with emitted := true}) := by
  unfold sendInstrMsg
  split
  · exact Or.inl ⟨rfl, rfl⟩
  · split
    · exact Or.inl ⟨rfl, rfl⟩
    · rename_i h
      exact Or.inr ⟨rfl, by simpa using h, rfl⟩

/-- Helper: at its own patch site (addr = text_addr + offset) the distance is
zero, so sendInstructionMessage returns true and leaves the emitted flag
set. -/
theorem sendInstrMsg_self (loc : Location) (ta toff : Int) :
    (sendInstrMsg loc (ta + (loc.offset : Int)) ta toff).2.2 = true ∧
    (sendInstrMsg loc (ta + (loc.offset : Int)) ta toff).1.emitted = true := by
  unfold sendInstrMsg
  rw [if_neg (by simp [INT8_MAX])]
  split
  · rename_i h
    exact ⟨rfl, by simpa using h⟩
  · exact ⟨rfl, rfl⟩

/-- Helper: setting an index to the value it already holds is the
identity. -/
theorem list_set_same {α : Type} (l : List α) (i : Nat) (a : α)
    (h : l[i]? = some a) : l.set i a = l := by
  induction l generalizing i with
  | nil => simp at h
  | cons x xs ih =>
    cases i with
    | zero =>
      simp only [List.getElem?_cons_zero, Option.some_inj] at h
      rw [← h, List.set_cons_zero]
    | succ i' =>
      simp only [List.getElem?_cons_succ] at h
      rw [List.set_cons_succ, ih i' h]

/-- Helper: splitting an appended list around a distinguished element. -/
theorem append_split {α : Type} (l ext pre suf : List α) (m : α)
    (h : l ++ ext = pre ++ m :: suf) :
    (∃ suf1, l = pre ++ m :: suf1) ∨
    (∃ pre2 suf2, pre = l ++ pre2 ∧ ext = pre2 ++ m :: suf2) := by
  induction l generalizing pre with
  | nil =>
    right
    exact ⟨pre, suf, by simp, by simpa using h⟩
  | cons x xs ih =>
    cases pre with
    | nil =>
      simp only [List.nil_append, List.cons_append, List.cons.injEq] at h
      exact Or.inl ⟨xs, by simp [h.1]⟩
    | cons p ps =>
      simp only [List.cons_append, List.cons.injEq] at h
      rcases ih ps h.2 with ⟨suf1, hx⟩ | ⟨pre2, suf2, hx, hy⟩
      · exact Or.inl ⟨suf1, by simp [h.1, hx]⟩
      · exact Or.inr ⟨pre2, suf2, by simp [h.1, hx], hy⟩

/-- Helper: two locations at different indices of an offset-distinct buffer
have different offsets. -/
theorem offset_ne_of_nodup (locs : List Location)
    (hnd : (locs.map Location.offset).Nodup) (j k : Nat) (a b : Location)
    (hj : locs[j]? = some a) (hk : locs[k]? = some b) (hjk : j ≠ k) :
    a.offset ≠ b.offset := by
  have hjl : j < locs.length := by
    by_contra hge
    rw [List.getElem?_eq_none (Nat.le_of_not_lt hge)] at hj
    exact Option.noConfusion hj
  have hkl : k < locs.length := by
    by_contra hge
    rw [List.getElem?_eq_none (Nat.le_of_not_lt hge)] at hk
    exact Option.noConfusion hk
  have hja : locs[j] = a := by
    have := List.getElem?_eq_getElem hjl
    rw [this] at hj
    exact (Option.some_inj.mp hj)
  have hkb : locs[k] = b := by
    have := List.getElem?_eq_getElem hkl
    rw [this] at hk
    exact (Option.some_inj.mp hk)
  have hpw := List.pairwise_iff_getElem.mp hnd
  rcases Nat.lt_or_ge j k with hlt | hge
  · have := hpw j k (by simpa using hjl) (by simpa using hkl) hlt
    simpa [hja, hkb] using this
  · have hlt : k < j := Nat.lt_of_le_of_ne hge (fun h => hjk h.symm)
    have hne := hpw k j (by simpa using hkl) (by simpa using hjl) hlt
    have hne' : b.offset ≠ a.offset := by simpa [hja, hkb] using hne
    exact fun hcon => hne' hcon.symm

/-- Helper: a message in the patch-site directives of a location is never an
instruction message. -/
theorem siteMsgs_not_instr (actions : List EmitAction) (toff : Int)
    (loc : Location) (m : Msg) (hm : m ∈ siteMsgs actions toff loc) :
    ∀ addr sz off, m ≠ Msg.instr addr sz off := by
  intro addr sz off
  unfold siteMsgs at hm
  rcases h1 : actions[loc.action]? with _ | ea
  · rw [h1] at hm; simp at hm
  · rw [h1] at hm
    cases ea with
    | builtin name => simp at hm; rw [hm]; intro hcon; exact Msg.noConfusion hcon
    | plug hp =>
      cases hp
      · simp at hm
      · simp at hm; rw [hm]; intro hcon; exact Msg.noConfusion hcon

/-- Helper: a shared patch-site message forces equal offsets. -/
theorem siteMsgs_offset_eq (actions : List EmitAction) (toff : Int)
    (a b : Location) (m : Msg) (ha : m ∈ siteMsgs actions toff a)
    (hb : m ∈ siteMsgs actions toff b) : a.offset = b.offset := by
  unfold siteMsgs at ha hb
  rcases h1 : actions[a.action]? with _ | ea
  · rw [h1] at ha; simp at ha
  rcases h2 : actions[b.action]? with _ | eb
  · rw [h2] at hb; simp at hb
  rw [h1] at ha
  rw [h2] at hb
  cases ea with
  | builtin na =>
    simp at ha
    cases eb with
    | builtin nb =>
      simp at hb
      rw [ha] at hb
      have := (Msg.patch.injEq _ _ _ _).mp hb.symm
      omega
    | plug hpb =>
      cases hpb
      · simp at hb
      · simp at hb; rw [ha] at hb; exact Msg.noConfusion hb
  | plug hpa =>
    cases hpa
    · simp at ha
    · simp at ha
      cases eb with
      | builtin nb =>
        simp at hb; rw [ha] at hb; exact Msg.noConfusion hb
      | plug hpb =>
        cases hpb
        · simp at hb
        · simp at hb
          rw [ha] at hb
          have := (Msg.pluginPatch.injEq _ _).mp hb.symm
          omega

/-- Helper: the patch-site directives depend only on the action and offset
fields. -/
theorem siteMsgs_congr (actions : List EmitAction) (toff : Int)
    (a b : Location) (hact : a.action = b.action)
    (hoff : a.offset = b.offset) :
    siteMsgs actions toff a = siteMsgs actions toff b := by
  unfold siteMsgs
  rw [hact, hoff]

/-- Helper: the instruction message depends only on the offset and size
fields. -/
theorem instrMsgFor_congr (ta toff : Int) (a b : Location)
    (hoff : a.offset = b.offset) (hsz : a.size = b.size) :
    instrMsgFor ta toff a = instrMsgFor ta toff b := by
  unfold instrMsgFor
  rw [hoff, hsz]

/-- Helper: StepOk is reflexive. -/
theorem stepOk_refl (actions : List EmitAction) (ta toff : Int)
    (locs : List Location) (msgs : List Msg) :
    StepOk actions ta toff locs msgs locs msgs :=
  ⟨rfl, fun _ a hj => ⟨a, hj, rfl, rfl, rfl, rfl, fun h => h⟩,
   ⟨[], by simp⟩, fun _ h => h⟩

/-- Helper: StepOk composes. -/
theorem stepOk_trans (actions : List EmitAction) (ta toff : Int)
    (locs : List Location) (msgs : List Msg) (locs1 : List Location)
    (msgs1 : List Msg) (locs2 : List Location) (msgs2 : List Msg)
    (h1 : StepOk actions ta toff locs msgs locs1 msgs1)
    (h2 : StepOk actions ta toff locs1 msgs1 locs2 msgs2) :
    StepOk actions ta toff locs msgs locs2 msgs2 := by
  obtain ⟨ho1, hs1, ⟨e1, he1⟩, hi1⟩ := h1
  obtain ⟨ho2, hs2, ⟨e2, he2⟩, hi2⟩ := h2
  refine ⟨ho2.trans ho1, ?_,
    ⟨e1 ++ e2, by rw [he2, he1, List.append_assoc]⟩, ?_⟩
  · intro j a hj
    obtain ⟨b, hb, hb1, hb2, hb3, hb4, hb5⟩ := hs1 j a hj
    obtain ⟨c, hc, hc1, hc2, hc3, hc4, hc5⟩ := hs2 j b hb
    exact ⟨c, hc, hc1.trans hb1, hc2.trans hb2, hc3.trans hb3,
      hc4.trans hb4, fun h => hc5 (hb5 h)⟩
  · intro hnd hm
    exact hi2 (by rw [ho1]; exact hnd) (hi1 hnd hm)

/-- Helper: one sendInstructionMessage call at index j is a valid emission
step. -/
theorem stepOk_send (actions : List EmitAction) (ta toff addr : Int)
    (locs : List Location) (msgs : List Msg) (j : Nat) (loc : Location)
    (hj : locs[j]? = some loc) :
    StepOk actions ta toff locs msgs
      (locs.set j (sendInstrMsg loc addr ta toff).1)
      (msgs ++ (sendInstrMsg loc addr ta toff).2.1.toList) := by
  have hjl : j < locs.length := by
    by_contra hge
    rw [List.getElem?_eq_none (Nat.le_of_not_lt hge)] at hj
    exact Option.noConfusion hj
  obtain ⟨hf1, hf2, hf3, hf4, hf5⟩ := sendInstrMsg_fields loc addr ta toff
  refine ⟨?_, ?_, ⟨_, rfl⟩, ?_⟩
  · rw [List.map_set, hf1]
    apply list_set_same
    rw [List.getElem?_map, hj]
    rfl
  · intro k a hk
    by_cases hkj : j = k
    · subst hkj
      have ha : a = loc := by
        rw [hj] at hk
        exact (Option.some_inj.mp hk).symm
      subst ha
      refine ⟨(sendInstrMsg a addr ta toff).1, ?_, hf1, hf2, hf3, hf4, hf5⟩
      rw [List.getElem?_set]
      simp [hjl]
    · refine ⟨a, ?_, rfl, rfl, rfl, rfl, fun h => h⟩
      rw [List.getElem?_set, if_neg hkj]
      exact hk
  · intro hnd hinv
    rcases sendInstrMsg_msg_cases loc addr ta toff with ⟨hm, hl⟩ | ⟨hm, he, hl⟩
    · rw [hm, hl, list_set_same locs j loc hj]
      simpa using hinv
    · rw [hm]
      constructor
      · intro k b hk
        rw [List.getElem?_set] at hk
        by_cases hkj : j = k
        · rw [if_pos hkj, if_pos (hkj ▸ hjl)] at hk
          have hb : b = (sendInstrMsg loc addr ta toff).1 :=
            (Option.some_inj.mp hk).symm
          have hbe : b.emitted = true := by rw [hb, hl]
          have him : instrMsgFor ta toff b = instrMsgFor ta toff loc :=
            instrMsgFor_congr _ _ _ _ (by rw [hb, hf1]) (by rw [hb, hf2])
          have h0 := hinv.1 j loc hj
          rw [he] at h0
          simp only [Bool.false_eq_true, if_false] at h0
          rw [him, if_pos hbe, List.count_append, h0]
          simp
        · rw [if_neg hkj] at hk
          have hcount := hinv.1 k b hk
          have hoff := offset_ne_of_nodup locs hnd j k loc b hj hk hkj
          have hne : instrMsgFor ta toff loc ≠ instrMsgFor ta toff b := by
            unfold instrMsgFor
            intro hcon
            rw [Msg.instr.injEq] at hcon
            exact hoff (by omega)
          rw [List.count_append, hcount]
          have hz : (Option.some (instrMsgFor ta toff loc)).toList.count
              (instrMsgFor ta toff b) = 0 := by
            simp only [Option.toList_some]
            rw [List.count_singleton']
            simp [hne]
          rw [hz]
          omega
      · intro k b m hk hm' pre suf hsplit
        simp only [Option.toList_some] at hsplit
        rcases append_split msgs [instrMsgFor ta toff loc] pre suf m hsplit
          with ⟨suf1, hin⟩ | ⟨pre2, suf2, hpre, hext⟩
        · rw [List.getElem?_set] at hk
          by_cases hkj : j = k
          · rw [if_pos hkj, if_pos (hkj ▸ hjl)] at hk
            have hb : b = (sendInstrMsg loc addr ta toff).1 :=
              (Option.some_inj.mp hk).symm
            have hsb : siteMsgs actions toff b = siteMsgs actions toff loc :=
              siteMsgs_congr _ _ _ _ (by rw [hb, hf4]) (by rw [hb, hf1])
            have him : instrMsgFor ta toff b = instrMsgFor ta toff loc :=
              instrMsgFor_congr _ _ _ _ (by rw [hb, hf1]) (by rw [hb, hf2])
            rw [him]
            rw [hsb] at hm'
            exact hinv.2 j loc m hj hm' pre suf1 hin
          · rw [if_neg hkj] at hk
            exact hinv.2 k b m hk hm' pre suf1 hin
        · exfalso
          have hmext : m ∈ ([instrMsgFor ta toff loc] : List Msg) := by
            rw [hext]
            exact List.mem_append.mpr (Or.inr (List.mem_cons_self _ _))
          have hmi : m = instrMsgFor ta toff loc := by simpa using hmext
          exact siteMsgs_not_instr actions toff b m hm'
            (ta + (loc.offset : Int)) loc.size (toff + (loc.offset : Int))
            (by rw [hmi]; rfl)

/-- Helper: the downward window loop at an absent index. -/
theorem emitDown_none (addr ta toff : Int) (locs : List Location)
    (msgs : List Msg) (j : Nat) (hj : locs[j]? = none) :
    emitDown addr ta toff locs msgs j = (locs, msgs) := by
  rw [emitDown, hj]

/-- Helper: the downward window loop at index 0. -/
theorem emitDown_zero_some (addr ta toff : Int) (locs : List Location)
    (msgs : List Msg) (loc : Location) (hj : locs[0]? = some loc) :
    emitDown addr ta toff locs msgs 0 =
      (locs.set 0 (sendInstrMsg loc addr ta toff).1,
       msgs ++ (sendInstrMsg loc addr ta toff).2.1.toList) := by
  rw [emitDown, hj]
  split
  · rename_i heq
    exact Option.noConfusion heq
  · rename_i loc' heq
    have hl : loc = loc' := Option.some_inj.mp heq
    subst hl
    show (if (sendInstrMsg loc addr ta toff).2.2 = true
        then (locs.set 0 (sendInstrMsg loc addr ta toff).1,
              msgs ++ (sendInstrMsg loc addr ta toff).2.1.toList)
        else (locs.set 0 (sendInstrMsg loc addr ta toff).1,
              msgs ++ (sendInstrMsg loc addr ta toff).2.1.toList)) = _
    exact ite_self _

/-- Helper: the downward window loop at a successor index: take the step and
continue downward iff sendInstructionMessage returned true. -/
theorem emitDown_succ_some (addr ta toff : Int) (locs : List Location)
    (msgs : List Msg) (j' : Nat) (loc : Location)
    (hj : locs[j' + 1]? = some loc) :
    emitDown addr ta toff locs msgs (j' + 1) =
      if (sendInstrMsg loc addr ta toff).2.2 then
        emitDown addr ta toff
          (locs.set (j' + 1) (sendInstrMsg loc addr ta toff).1)
          (msgs ++ (sendInstrMsg loc addr ta toff).2.1.toList) j'
      else
        (locs.set (j' + 1) (sendInstrMsg loc addr ta toff).1,
         msgs ++ (sendInstrMsg loc addr ta toff).2.1.toList) := by
  rw [emitDown, hj]

/-- Helper: every run of the downward window loop is a valid emission
step. -/
theorem emitDown_stepOk (actions : List EmitAction) (addr ta toff : Int) :
    ∀ (j : Nat) (locs : List Location) (msgs : List Msg),
      StepOk actions ta toff locs msgs
        (emitDown addr ta toff locs msgs j).1
        (emitDown addr ta toff locs msgs j).2 := by
  intro j
  induction j with
  | zero =>
    intro locs msgs
    rcases hj : locs[0]? with _ | loc
    · rw [emitDown_none addr ta toff locs msgs 0 hj]
      exact stepOk_refl actions ta toff locs msgs
    · rw [emitDown_zero_some addr ta toff locs msgs loc hj]
      exact stepOk_send actions ta toff addr locs msgs 0 loc hj
  | succ j' ih =>
    intro locs msgs
    rcases hj : locs[j' + 1]? with _ | loc
    · rw [emitDown_none addr ta toff locs msgs (j' + 1) hj]
      exact stepOk_refl actions ta toff locs msgs
    · rw [emitDown_succ_some addr ta toff locs msgs j' loc hj]
      have hsend := stepOk_send actions ta toff addr locs msgs (j' + 1) loc hj
      by_cases hr : (sendInstrMsg loc addr ta toff).2.2 = true
      · rw [if_pos hr]
        exact stepOk_trans actions ta toff locs msgs _ _ _ _ hsend (ih _ _)
      · rw [if_neg hr]
        exact hsend

/-- Helper: the upward window loop at an absent index. -/
theorem emitUp_none (addr ta toff : Int) (locs : List Location)
    (msgs : List Msg) (j : Nat) (hj : locs[j]? = none) :
    emitUp addr ta toff locs msgs j = (locs, msgs) := by
  rw [emitUp]
  split
  · rfl
  · rename_i loc h
    rw [hj] at h
    exact Option.noConfusion h

/-- Helper: the upward window loop at a present index: take the step and
continue upward iff sendInstructionMessage returned true. -/
theorem emitUp_some (addr ta toff : Int) (locs : List Location)
    (msgs : List Msg) (j : Nat) (loc : Location) (hj : locs[j]? = some loc) :
    emitUp addr ta toff locs msgs j =
      if (sendInstrMsg loc addr ta toff).2.2 then
        emitUp addr ta toff (locs.set j (sendInstrMsg loc addr ta toff).1)
          (msgs ++ (sendInstrMsg loc addr ta toff).2.1.toList) (j + 1)
      else
        (locs.set j (sendInstrMsg loc addr ta toff).1,
         msgs ++ (sendInstrMsg loc addr ta toff).2.1.toList) := by
  rw [emitUp]
  split
  · rename_i h
    rw [hj] at h
    exact Option.noConfusion h
  · rename_i loc' h
    rw [hj] at h
    have hl : loc = loc' := Option.some_inj.mp h
    subst hl
    rfl

/-- Helper: every run of the upward window loop is a valid emission step. -/
theorem emitUp_stepOk (actions : List EmitAction) (addr ta toff : Int) :
    ∀ (fuel : Nat) (locs : List Location) (msgs : List Msg) (j : Nat),
      locs.length - j ≤ fuel →
      StepOk actions ta toff locs msgs
        (emitUp addr ta toff locs msgs j).1
        (emitUp addr ta toff locs msgs j).2 := by
  intro fuel
  induction fuel with
  | zero =>
    intro locs msgs j hf
    have hj : locs[j]? = none := List.getElem?_eq_none (by omega)
    rw [emitUp_none addr ta toff locs msgs j hj]
    exact stepOk_refl actions ta toff locs msgs
  | succ f ih =>
    intro locs msgs j hf
    rcases hj : locs[j]? with _ | loc
    · rw [emitUp_none addr ta toff locs msgs j hj]
      exact stepOk_refl actions ta toff locs msgs
    · rw [emitUp_some addr ta toff locs msgs j loc hj]
      have hjl : j < locs.length := by
        by_contra hge
        rw [List.getElem?_eq_none (Nat.le_of_not_lt hge)] at hj
        exact Option.noConfusion hj
      have hsend := stepOk_send actions ta toff addr locs msgs j loc hj
      by_cases hr : (sendInstrMsg loc addr ta toff).2.2 = true
      · rw [if_pos hr]
        refine stepOk_trans actions ta toff locs msgs _ _ _ _ hsend
          (ih _ _ (j + 1) ?_)
        rw [List.length_set]
        omega
      · rw [if_neg hr]
        exact hsend

/-- Helper: the downward window loop started at index i with the patch
address of the location at i leaves that location's emitted flag set: its
first call has distance zero, so the flag is set there, and the remaining
steps never clear it. -/
theorem emitDown_self_emitted (actions : List EmitAction) (ta toff : Int)
    (locs : List Location) (msgs : List Msg) (i : Nat) (loc : Location)
    (hi : locs[i]? = some loc) :
    ∃ b : Location,
      (emitDown (ta + (loc.offset : Int)) ta toff locs msgs i).1[i]? =
        some b ∧ b.emitted = true := by
  have hil : i < locs.length := by
    by_contra hge
    rw [List.getElem?_eq_none (Nat.le_of_not_lt hge)] at hi
    exact Option.noConfusion hi
  have hself := sendInstrMsg_self loc ta toff
  have hset : (locs.set i
      (sendInstrMsg loc (ta + (loc.offset : Int)) ta toff).1)[i]? =
      some (sendInstrMsg loc (ta + (loc.offset : Int)) ta toff).1 := by
    rw [List.getElem?_set]
    simp [hil]
  cases i with
  | zero =>
    rw [emitDown_zero_some _ _ _ _ _ _ hi]
    exact ⟨_, hset, hself.2⟩
  | succ i' =>
    rw [emitDown_succ_some _ _ _ _ _ _ _ hi, if_pos hself.1]
    obtain ⟨-, hs, -, -⟩ := emitDown_stepOk actions (ta + (loc.offset : Int))
      ta toff i'
      (locs.set (i' + 1) (sendInstrMsg loc (ta + (loc.offset : Int)) ta toff).1)
      (msgs ++ (sendInstrMsg loc (ta + (loc.offset : Int)) ta toff).2.1.toList)
    obtain ⟨b, hb, -, -, -, -, hmono⟩ := hs (i' + 1) _ hset
    exact ⟨b, hb, hmono hself.2⟩

/-- Helper: appending the patch-site directives of a location whose
instruction message is already in the trace (witnessed by an emitted entry of
the current buffer with the same action and offset) is a valid emission
step. -/
theorem stepOk_site (actions : List EmitAction) (ta toff : Int)
    (locs : List Location) (msgs : List Msg) (loc : Location) (i : Nat)
    (hb : ∃ b : Location, locs[i]? = some b ∧ b.emitted = true ∧
      b.action = loc.action ∧ b.offset = loc.offset) :
    StepOk actions ta toff locs msgs locs
      (msgs ++ siteMsgs actions toff loc) := by
  obtain ⟨b, hbi, hbe, hba, hbo⟩ := hb
  refine ⟨rfl, fun _ a hj => ⟨a, hj, rfl, rfl, rfl, rfl, fun h => h⟩,
    ⟨_, rfl⟩, ?_⟩
  intro hnd hinv
  constructor
  · intro k a hk
    rw [List.count_append, hinv.1 k a hk]
    have hz : (siteMsgs actions toff loc).count (instrMsgFor ta toff a) = 0 := by
      rw [List.count_eq_zero]
      intro hmem
      exact siteMsgs_not_instr actions toff loc _ hmem
        (ta + (a.offset : Int)) a.size (toff + (a.offset : Int)) rfl
    rw [hz]
    omega
  · intro k a m hk hm pre suf hsplit
    rcases append_split msgs (siteMsgs actions toff loc) pre suf m hsplit
      with ⟨suf1, hin⟩ | ⟨pre2, suf2, hpre, hext⟩
    · exact hinv.2 k a m hk hm pre suf1 hin
    · have hmloc : m ∈ siteMsgs actions toff loc := by
        rw [hext]
        exact List.mem_append.mpr (Or.inr (List.mem_cons_self _ _))
      have hmb : m ∈ siteMsgs actions toff b := by
        rw [siteMsgs_congr actions toff b loc hba hbo]
        exact hmloc
      have hoff : a.offset = b.offset :=
        siteMsgs_offset_eq actions toff a b m hm hmb
      have hki : k = i := by
        by_contra hne
        exact offset_ne_of_nodup locs hnd k i a b hk hbi hne hoff
      subst hki
      have hab : a = b := by
        rw [hk] at hbi
        exact Option.some_inj.mp hbi
      subst hab
      have hcount := hinv.1 k a hk
      rw [hbe] at hcount
      simp only [if_true] at hcount
      have hmem : instrMsgFor ta toff a ∈ msgs := by
        rw [← List.count_pos_iff]
        omega
      rw [hpre]
      exact List.mem_append.mpr (Or.inl hmem)

/-- Helper: the outer-loop body at an absent index. -/
theorem emitAt_none (actions : List EmitAction) (ta toff : Int)
    (locs : List Location) (msgs : List Msg) (i : Nat)
    (hi : locs[i]? = none) :
    emitAt actions ta toff locs msgs i = (locs, msgs) := by
  unfold emitAt
  rw [hi]

/-- Helper: the outer-loop body skips non-patch locations. -/
theorem emitAt_nopatch (actions : List EmitAction) (ta toff : Int)
    (locs : List Location) (msgs : List Msg) (i : Nat) (loc : Location)
    (hi : locs[i]? = some loc) (hp : loc.patch = false) :
    emitAt actions ta toff locs msgs i = (locs, msgs) := by
  unfold emitAt
  rw [hi]
  simp [hp]

/-- Helper: the outer-loop body at a to-patch location: both window loops
from the location's address, then the patch-site directives. -/
theorem emitAt_patch (actions : List EmitAction) (ta toff : Int)
    (locs : List Location) (msgs : List Msg) (i : Nat) (loc : Location)
    (hi : locs[i]? = some loc) (hp : loc.patch = true) :
    emitAt actions ta toff locs msgs i =
      ((emitUp (ta + (loc.offset : Int)) ta toff
          (emitDown (ta + (loc.offset : Int)) ta toff locs msgs i).1
          (emitDown (ta + (loc.offset : Int)) ta toff locs msgs i).2
          (i + 1)).1,
       (emitUp (ta + (loc.offset : Int)) ta toff
          (emitDown (ta + (loc.offset : Int)) ta toff locs msgs i).1
          (emitDown (ta + (loc.offset : Int)) ta toff locs msgs i).2
          (i + 1)).2 ++ siteMsgs actions toff loc) := by
  unfold emitAt
  rw [hi]
  simp [hp]

/-- Helper: the outer-loop body is a valid emission step, and at a to-patch
index it leaves the emitted flag set. -/
theorem emitAt_stepOk (actions : List EmitAction) (ta toff : Int)
    (locs : List Location) (msgs : List Msg) (i : Nat) :
    StepOk actions ta toff locs msgs
      (emitAt actions ta toff locs msgs i).1
      (emitAt actions ta toff locs msgs i).2 ∧
    (∀ loc : Location, locs[i]? = some loc → loc.patch = true →
      ∃ b : Location, (emitAt actions ta toff locs msgs i).1[i]? = some b ∧
        b.emitted = true) := by
  rcases hi : locs[i]? with _ | loc
  · rw [emitAt_none actions ta toff locs msgs i hi]
    refine ⟨stepOk_refl actions ta toff locs msgs, ?_⟩
    intro loc hl
    exact fun _ => absurd hl (by simp)
  · by_cases hp : loc.patch = true
    · rw [emitAt_patch actions ta toff locs msgs i loc hi hp]
      have hdown := emitDown_stepOk actions (ta + (loc.offset : Int)) ta toff
        i locs msgs
      have hup := emitUp_stepOk actions (ta + (loc.offset : Int)) ta toff
        ((emitDown (ta + (loc.offset : Int)) ta toff locs msgs i).1.length)
        (emitDown (ta + (loc.offset : Int)) ta toff locs msgs i).1
        (emitDown (ta + (loc.offset : Int)) ta toff locs msgs i).2
        (i + 1) (by omega)
      obtain ⟨b1, hb1, hb1e⟩ :=
        emitDown_self_emitted actions ta toff locs msgs i loc hi
      obtain ⟨b1', hb1', hf1, hf2, hf3, hf4, -⟩ := hdown.2.1 i loc hi
      have hbb : b1 = b1' := by
        rw [hb1] at hb1'
        exact Option.some_inj.mp hb1'
      subst hbb
      obtain ⟨b2, hb2, hg1, hg2, hg3, hg4, hmono⟩ := hup.2.1 i b1 hb1
      have hb2e : b2.emitted = true := hmono hb1e
      have hsite := stepOk_site actions ta toff
        (emitUp (ta + (loc.offset : Int)) ta toff
          (emitDown (ta + (loc.offset : Int)) ta toff locs msgs i).1
          (emitDown (ta + (loc.offset : Int)) ta toff locs msgs i).2
          (i + 1)).1
        (emitUp (ta + (loc.offset : Int)) ta toff
          (emitDown (ta + (loc.offset : Int)) ta toff locs msgs i).1
          (emitDown (ta + (loc.offset : Int)) ta toff locs msgs i).2
          (i + 1)).2
        loc i
        ⟨b2, hb2, hb2e, by rw [hg4]; exact hf4, by rw [hg1]; exact hf1⟩
      refine ⟨stepOk_trans _ _ _ _ _ _ _ _ _
        (stepOk_trans _ _ _ _ _ _ _ _ _ hdown hup) hsite, ?_⟩
      intro loc' hl' hp'
      exact ⟨b2, hb2, hb2e⟩
    · have hpf : loc.patch = false := eq_false_of_ne_true hp
      rw [emitAt_nopatch actions ta toff locs msgs i loc hi hpf]
      refine ⟨stepOk_refl actions ta toff locs msgs, ?_⟩
      intro loc' hl' hp'
      have hll : loc = loc' := Option.some_inj.mp hl'
      rw [← hll] at hp'
      exact absurd hp' hp

/-- Helper: the outer reverse loop unfolds one iteration at a time. -/
theorem emitAll_reduce (actions : List EmitAction) (ta toff : Int)
    (locs : List Location) (msgs : List Msg) (n : Nat) :
    emitAll actions ta toff locs msgs (n + 1) =
      emitAll actions ta toff (emitAt actions ta toff locs msgs n).1
        (emitAt actions ta toff locs msgs n).2 n := by
  rw [emitAll]

/-- Helper: the whole outer reverse loop is a valid emission step and leaves
the emitted flag set at every to-patch index it visits. -/
theorem emitAll_stepOk (actions : List EmitAction) (ta toff : Int) :
    ∀ (n : Nat) (locs : List Location) (msgs : List Msg),
      StepOk actions ta toff locs msgs
        (emitAll actions ta toff locs msgs n).1
        (emitAll actions ta toff locs msgs n).2 ∧
      (∀ (i : Nat) (loc : Location), i < n → locs[i]? = some loc →
        loc.patch = true →
        ∃ b : Location,
          (emitAll actions ta toff locs msgs n).1[i]? = some b ∧
          b.emitted = true) := by
  intro n
  induction n with
  | zero =>
    intro locs msgs
    refine ⟨stepOk_refl actions ta toff locs msgs, ?_⟩
    intro i loc hi
    omega
  | succ m ih =>
    intro locs msgs
    obtain ⟨hat, hemit⟩ := emitAt_stepOk actions ta toff locs msgs m
    obtain ⟨hrest, hrestem⟩ := ih (emitAt actions ta toff locs msgs m).1
      (emitAt actions ta toff locs msgs m).2
    rw [emitAll_reduce]
    refine ⟨stepOk_trans _ _ _ _ _ _ _ _ _ hat hrest, ?_⟩
    intro i loc hi hl hp
    by_cases him : i < m
    · obtain ⟨b, hb, hb1, hb2, hb3, hb4, -⟩ := hat.2.1 i loc hl
      exact hrestem i b him hb (by rw [hb3]; exact hp)
    · have hieq : i = m := by omega
      subst hieq
      obtain ⟨b, hb, hbe⟩ := hemit loc hl hp
      obtain ⟨c, hc, -, -, -, -, hmono⟩ := hrest.2.1 i b hb
      exact ⟨c, hc, hmono hbe⟩

/-- C8: in the emission phase over an offset-distinct, initially unemitted
location buffer, every to-patch location's instruction message appears in
the directive trace exactly once, and it appears before that location's
patch-site directive: the location is always within its own window (distance
zero), and the emitted flag prevents any resend. -/
theorem c8_instr_once_before_patch (actions : List EmitAction) (ta toff : Int)
    (locs : List Location) (hnd : (locs.map Location.offset).Nodup)
    (hinit : ∀ l ∈ locs, l.emitted = false)
    (i : Nat) (loc : Location) (hi : locs[i]? = some loc)
    (hp : loc.patch = true) :
    (emitPatches actions ta toff locs).2.count (instrMsgFor ta toff loc) = 1 ∧
    (∀ m ∈ siteMsgs actions toff loc, ∀ pre suf,
      (emitPatches actions ta toff locs).2 = pre ++ m :: suf →
      instrMsgFor ta toff loc ∈ pre) := by
  have hinv0 : MsgInv actions ta toff locs [] := by
    constructor
    · intro j a hj
      rw [hinit a (List.getElem?_mem hj)]
      simp
    · intro j a m hj hm pre suf hsplit
      have hlen := congrArg List.length hsplit
      simp at hlen
      omega
  have hil : i < locs.length := by
    by_contra hge
    rw [List.getElem?_eq_none (Nat.le_of_not_lt hge)] at hi
    exact Option.noConfusion hi
  obtain ⟨hstep, hemit⟩ := emitAll_stepOk actions ta toff locs.length locs []
  obtain ⟨b, hb, hbe⟩ := hemit i loc hil hi hp
  obtain ⟨b', hb', hf1, hf2, hf3, hf4, -⟩ := hstep.2.1 i loc hi
  have hbb : b = b' := by
    rw [hb] at hb'
    exact Option.some_inj.mp hb'
  subst hbb
  have hinv := hstep.2.2.2 hnd hinv0
  have hcount := hinv.1 i b hb
  rw [hbe] at hcount
  simp only [if_true] at hcount
  have himeq : instrMsgFor ta toff b = instrMsgFor ta toff loc :=
    instrMsgFor_congr ta toff b loc hf1 hf2
  have hseq : siteMsgs actions toff b = siteMsgs actions toff loc :=
    siteMsgs_congr actions toff b loc hf4 hf1
  have hpe : (emitPatches actions ta toff locs).2 =
      (emitAll actions ta toff locs [] locs.length).2 := rfl
  constructor
  · rw [hpe, ← himeq]
    exact hcount
  · intro m hm pre suf hsplit
    have hmb : m ∈ siteMsgs actions toff b := by
      rw [hseq]
      exact hm
    have hres := hinv.2 i b m hb hmb pre suf (by rw [← hpe]; exact hsplit)
    rwa [himeq] at hres

/-- C8 witness: a one-location buffer holding a to-patch location and a trap
action: the trace contains its instruction message once, before the patch
message. -/
theorem c8_instr_once_before_patch_witness :
    ((([locPatch0] : List Location).map Location.offset).Nodup ∧
     (∀ l ∈ ([locPatch0] : List Location), l.emitted = false) ∧
     ([locPatch0] : List Location)[0]? = some locPatch0 ∧
     locPatch0.patch = true) ∧
    ((emitPatches [EmitAction.builtin ("trap")] 0 0 [locPatch0]).2.count
        (instrMsgFor 0 0 locPatch0) = 1 ∧
     (∀ m ∈ siteMsgs [EmitAction.builtin ("trap")] 0 locPatch0, ∀ pre suf,
        (emitPatches [EmitAction.builtin ("trap")] 0 0 [locPatch0]).2 =
          pre ++ m :: suf →
        instrMsgFor 0 0 locPatch0 ∈ pre)) :=
  ⟨⟨by decide, by decide, rfl, rfl⟩,
   c8_instr_once_before_patch [EmitAction.builtin ("trap")] 0 0 [locPatch0]
     (by decide) (by decide) 0 locPatch0 rfl rfl⟩

end E9Tool
